import Mathlib

/-!
# mash: the request-processing pipeline of `main.c`

A shallow embedding of the C source of the mash shell.

* A C string is the list of its characters; a `char*` that may be `NULL` is an `Option`.
* A `char**` (and the `char***` of stages) is a list of slots.  A slot obtained from `malloc`
  and never written is `Slot.uninit`; using it is undefined behaviour, which the model reports
  as a `Fault`.  Every array access is bounds-checked in the model for the same reason.
* System calls act on an explicit descriptor table and are logged in a trace; what the
  operating system answers (can the file be opened, does `fork` succeed, is the program found)
  is a parameter `Os`.
* A child process is described by what it does up to and after its `execvp` call; the
  interpreter records the children it spawns and reaps in a list of events.  Undefined
  behaviour of a child stays in the child: the interpreter only sees when the child ends.
* Standard input is the list of the lines it still holds.  Loops carry a fuel argument: the
  loops over an array get from their caller more fuel than the array has slots, the
  interactive loop takes its fuel as a parameter.
-/

namespace Mash

/-! ## Memory model -/

/-- A token is a C string: the characters before its terminating NUL. -/
abbrev Token := List Char

/-- Undefined behaviour of the C program, made observable. -/
inductive Fault
  | outOfBounds
  | uninitRead
  | nullDeref
  | outOfFuel
  deriving DecidableEq, Repr

deriving instance DecidableEq for Except

/-- One pointer-sized cell of an array: never written, `NULL`, or a pointer to `a`. -/
inductive Slot (α : Type)
  | uninit
  | null
  | ptr (a : α)
  deriving DecidableEq, Repr

/-- An array of pointers, as laid out in memory. -/
abbrev Buf (α : Type) := List (Slot α)

/-- The constant `int bufsize = 64` of the three allocating functions. -/
def bufsize : Nat := 64

/-- Fresh memory from `malloc(n * sizeof(..))`: `n` slots with indeterminate content. -/
def malloc (α : Type) (n : Nat) : Buf α := List.replicate n Slot.uninit

/-- The assignment `buf[i] = v`; writing outside the array is a fault. -/
def store {α : Type} (buf : Buf α) (i : Nat) (v : Slot α) : Except Fault (Buf α) :=
  if i < buf.length then .ok (buf.set i v) else .error .outOfBounds

/-- The read `buf[i]`: `none` for `NULL`; reading outside the array or a slot that was never
written is a fault. -/
def load {α : Type} (buf : Buf α) (i : Nat) : Except Fault (Option α) :=
  match buf.get? i with
  | none => .error .outOfBounds
  | some .uninit => .error .uninitRead
  | some .null => .ok none
  | some (.ptr a) => .ok (some a)

/-- The `NULL`-terminated vector holding exactly the tokens `ts`: the tokens, then the end
marker, and nothing after it. -/
def vec {α : Type} (ts : List α) : Buf α := ts.map Slot.ptr ++ [Slot.null]

/-- What a consumer of a `NULL`-terminated vector (such as `execvp`) reads: the elements up to
the first `NULL`.  Meeting a slot that was never written, or the end of the array, before a
`NULL` is a fault. -/
def readVec {α : Type} : Buf α → Except Fault (List α)
  | [] => .error .outOfBounds
  | .uninit :: _ => .error .uninitRead
  | .null :: _ => .ok []
  | .ptr a :: rest =>
    match readVec rest with
    | .ok as => .ok (a :: as)
    | .error e => .error e

/-! ## Tokenizer: `split_into_tokens` -/

/-- The delimiter set `" \t\r\n\a"`. -/
def isDelim (c : Char) : Bool :=
  c == ' ' || c == '\t' || c == '\r' || c == '\n' || c == Char.ofNat 7

/-- The C string stored in a character buffer: the characters before the first NUL. -/
def cstr : List Char → List Char
  | [] => []
  | c :: cs => if c = Char.ofNat 0 then [] else c :: cstr cs

/-- One call of `strtok` on the unread remainder `s` of the string: skip the leading
delimiters; if nothing is left return `NULL`; otherwise the token runs up to the next delimiter,
which is overwritten by NUL, and the saved position is the character after it (the end of the
string if there was no delimiter). -/
def strtok (s : List Char) : Option (Token × List Char) :=
  match s.dropWhile isDelim with
  | [] => none
  | c :: cs =>
    some ((c :: cs).takeWhile (fun x => !isDelim x),
          ((c :: cs).dropWhile (fun x => !isDelim x)).tail)

/-- The `while (token != NULL)` loop of `split_into_tokens`, followed by `tokens[i] = NULL`.
The second argument is the result of the latest `strtok` call. -/
def split_into_tokens_loop :
    Nat → Option (Token × List Char) → Nat → Buf Token → Except Fault (Buf Token)
  | 0, _, _, _ => .error .outOfFuel
  | _ + 1, none, i, tokens => store tokens i .null
  | fuel + 1, some (token, saved), i, tokens =>
    match store tokens i (.ptr token) with
    | .error e => .error e
    | .ok tokens1 => split_into_tokens_loop fuel (strtok saved) (i + 1) tokens1

/-- Source function `split_into_tokens`, lines 35-48. -/
def split_into_tokens (line : List Char) : Except Fault (Buf Token) :=
  split_into_tokens_loop ((cstr line).length + 1) (strtok (cstr line)) 0 (malloc Token bufsize)

/-- The maximal non-empty runs of non-delimiter characters of a string, in order: `s` is a
(possibly empty) run of delimiters, then a non-empty delimiter-free token that is followed by
the end of the string or by a delimiter, then the runs of what remains. -/
inductive MaximalRuns : List Char → List Token → Prop
  | done (ds : List Char) (hds : ∀ c ∈ ds, isDelim c = true) : MaximalRuns ds []
  | run (ds t rest : List Char) (ts : List Token)
      (hds : ∀ c ∈ ds, isDelim c = true)
      (hne : t ≠ [])
      (ht : ∀ c ∈ t, isDelim c = false)
      (hmax : rest = [] ∨ ∃ d r, rest = d :: r ∧ isDelim d = true)
      (hrest : MaximalRuns rest ts) :
      MaximalRuns (ds ++ t ++ rest) (t :: ts)

/-! ## Pipeline splitter: `split_into_commands` -/

/-- The pipe symbol `"|"`. -/
def pipeTok : Token := ['|']

/-- The `while (tokens[i] != NULL)` loop of `split_into_commands`.  `commands[k][j] = tokens[i]`
first reads the row pointer `commands[k]` and then writes slot `j` of that row. -/
def split_into_commands_loop (tokens : Buf Token) :
    Nat → Nat → Nat → Nat → Buf (Buf Token) → Except Fault (Buf (Buf Token) × Nat)
  | 0, _, _, _, _ => .error .outOfFuel
  | fuel + 1, i, j, k, commands =>
    match load tokens i with
    | .error e => .error e
    | .ok none => .ok (commands, i)
    | .ok (some t) =>
      if t = pipeTok then
        split_into_commands_loop tokens fuel (i + 1) 0 (k + 1) commands
      else
        match load commands k with
        | .error e => .error e
        | .ok none => .error .nullDeref
        | .ok (some row) =>
          match store row j (.ptr t) with
          | .error e => .error e
          | .ok row1 =>
            match store commands k (.ptr row1) with
            | .error e => .error e
            | .ok commands1 => split_into_commands_loop tokens fuel (i + 1) (j + 1) k commands1

/-- Source function `split_into_commands`, lines 56-74.  Returns the stage array together with
the token array after the closing `tokens[i] = NULL`. -/
def split_into_commands (tokens : Buf Token) :
    Except Fault (Buf (Buf Token) × Buf Token) :=
  match split_into_commands_loop tokens (tokens.length + 1) 0 0 0
      (malloc (Buf Token) bufsize) with
  | .error e => .error e
  | .ok (commands, i) =>
    match store tokens i .null with
    | .error e => .error e
    | .ok tokens1 => .ok (commands, tokens1)

/-! ## Descriptors and system calls -/

/-- An open file description: the path it was opened from and the `open` flags. -/
structure OpenFile where
  path : Token
  flags : Nat
  deriving DecidableEq, Repr

/-- The descriptor table of a process: entry `fd` is the file bound to descriptor `fd`. -/
abbrev FdTable := List (Option OpenFile)

/-- The file bound to descriptor `fd`, if any. -/
def getFd : FdTable → Nat → Option OpenFile
  | [], _ => none
  | x :: _, 0 => x
  | _ :: xs, n + 1 => getFd xs n

/-- Rebind descriptor `fd`. -/
def setFd : FdTable → Nat → Option OpenFile → FdTable
  | [], 0, v => [v]
  | [], n + 1, v => none :: setFd [] n v
  | _ :: xs, 0, v => v :: xs
  | x :: xs, n + 1, v => x :: setFd xs n v

/-- The lowest-numbered descriptor that is not open: what `open` returns on success. -/
def lowestFree : FdTable → Nat
  | [] => 0
  | none :: _ => 0
  | some _ :: xs => lowestFree xs + 1

/-- A system call as issued, with its return value. -/
inductive Sys
  | sopen (path : Option Token) (flags : Nat) (mode : Option Nat) (ret : Int)
  | dup2 (oldfd newfd : Int) (ret : Int)
  | close (fd : Int) (ret : Int)
  deriving DecidableEq, Repr

/-- A process as far as redirection is concerned: its descriptor table and the system calls it
has issued so far. -/
structure Proc where
  fds : FdTable
  trace : List Sys
  deriving DecidableEq, Repr

/-- The answers of the operating system that the program cannot determine itself. -/
structure Os where
  /-- Whether `open(path, flags, ..)` succeeds. -/
  canOpen : Token → Nat → Bool
  /-- The result of `fork` in the parent: the pid of the child, or `none` on failure. -/
  forkPid : Option Nat
  /-- Whether `execvp(file, ..)` finds and loads the program. -/
  canExec : Token → Bool
  /-- The exit status of the program once executed; `none` when it never terminates. -/
  exitCode : Token → List Token → Option Nat
  /-- The status that `wait` collects from a child whose behaviour became undefined (it was
  killed by a signal, or went on in some way and ended); `none` when it never terminates. -/
  crashStatus : Fault → Option Nat

/-- Flag `O_RDONLY` of `fcntl.h`. -/
def O_RDONLY : Nat := 0
/-- Flag `O_WRONLY` of `fcntl.h`. -/
def O_WRONLY : Nat := 1
/-- Flag `O_CREAT` of `fcntl.h` (octal 100). -/
def O_CREAT : Nat := 64
/-- Flag `O_TRUNC` of `fcntl.h` (octal 1000). -/
def O_TRUNC : Nat := 512
/-- Permission bit owner-read (octal 400). -/
def S_IRUSR : Nat := 256
/-- Permission bit owner-write (octal 200). -/
def S_IWUSR : Nat := 128
/-- Permission bit group-read (octal 040). -/
def S_IRGRP : Nat := 32
/-- Permission bit group-write (octal 020). -/
def S_IWGRP : Nat := 16

/-- The call `open(path, flags[, mode])`.  A `NULL` path and a path the system refuses both
return -1; otherwise the file is bound to the lowest free descriptor, which is returned. -/
def sys_open (os : Os) (p : Proc) (path : Option Token) (flags : Nat) (mode : Option Nat) :
    Int × Proc :=
  match path with
  | none => (-1, { fds := p.fds, trace := p.trace ++ [Sys.sopen none flags mode (-1)] })
  | some f =>
    if os.canOpen f flags then
      (Int.ofNat (lowestFree p.fds),
        { fds := setFd p.fds (lowestFree p.fds) (some { path := f, flags := flags }),
          trace := p.trace ++ [Sys.sopen (some f) flags mode (Int.ofNat (lowestFree p.fds))] })
    else
      (-1, { fds := p.fds, trace := p.trace ++ [Sys.sopen (some f) flags mode (-1)] })

/-- The call `dup2(oldfd, newfd)`: when `oldfd` is open, `newfd` is made to refer to the same
file; otherwise it fails and changes nothing. -/
def sys_dup2 (p : Proc) (oldfd newfd : Int) : Proc :=
  if 0 ≤ oldfd ∧ 0 ≤ newfd ∧ (getFd p.fds oldfd.toNat).isSome then
    { fds := setFd p.fds newfd.toNat (getFd p.fds oldfd.toNat),
      trace := p.trace ++ [Sys.dup2 oldfd newfd newfd] }
  else
    { fds := p.fds, trace := p.trace ++ [Sys.dup2 oldfd newfd (-1)] }

/-- The call `close(fd)`: an open descriptor is released; otherwise it fails and changes
nothing. -/
def sys_close (p : Proc) (fd : Int) : Proc :=
  if 0 ≤ fd ∧ (getFd p.fds fd.toNat).isSome then
    { fds := setFd p.fds fd.toNat none, trace := p.trace ++ [Sys.close fd 0] }
  else
    { fds := p.fds, trace := p.trace ++ [Sys.close fd (-1)] }

/-! ## Redirector: `redirect` -/

/-- The token `"<"`. -/
def ltTok : Token := ['<']

/-- The token `">"`. -/
def gtTok : Token := ['>']

/-- The third argument of `open` for `">"`: `S_IRUSR | S_IRGRP | S_IWGRP | S_IWUSR`. -/
def outMode : Nat := S_IRUSR ||| S_IRGRP ||| S_IWGRP ||| S_IWUSR

/-- The second argument of `open` for `">"`: `O_WRONLY | O_TRUNC | O_CREAT`. -/
def outFlags : Nat := O_WRONLY ||| O_TRUNC ||| O_CREAT

/-- The `while (argv[i] != NULL)` loop of `redirect`.  The arguments after the fuel are the
locals `i` and `new_arg`, the array `new_argv` and the process the calls act on. -/
def redirect_loop (os : Os) (argv : Buf Token) :
    Nat → Nat → Bool → Buf Token → Proc → Except Fault (Buf Token × Proc)
  | 0, _, _, _, _ => .error .outOfFuel
  | fuel + 1, i, new_arg, new_argv, p =>
    match load argv i with
    | .error e => .error e
    | .ok none => .ok (new_argv, p)
    | .ok (some a) =>
      if a = ltTok then
        match load argv (i + 1) with
        | .error e => .error e
        | .ok path =>
          match store new_argv i .null with
          | .error e => .error e
          | .ok new_argv1 =>
            redirect_loop os argv fuel (i + 1) false new_argv1
              (sys_close
                (sys_dup2 (sys_open os p path O_RDONLY none).2
                  (sys_open os p path O_RDONLY none).1 0)
                (sys_open os p path O_RDONLY none).1)
      else if a = gtTok then
        match load argv (i + 1) with
        | .error e => .error e
        | .ok path =>
          match store new_argv i .null with
          | .error e => .error e
          | .ok new_argv1 =>
            redirect_loop os argv fuel (i + 1) false new_argv1
              (sys_close
                (sys_dup2 (sys_open os p path outFlags (some outMode)).2
                  (sys_open os p path outFlags (some outMode)).1 1)
                (sys_open os p path outFlags (some outMode)).1)
      else if new_arg then
        match store new_argv i (.ptr a) with
        | .error e => .error e
        | .ok new_argv1 => redirect_loop os argv fuel (i + 1) new_arg new_argv1 p
      else
        redirect_loop os argv fuel (i + 1) new_arg new_argv p

/-- Source function `redirect`, lines 82-109, run in process `p`: the array `new_argv` it
returns and the process afterwards. -/
def redirect (os : Os) (p : Proc) (argv : Buf Token) : Except Fault (Buf Token × Proc) :=
  redirect_loop os argv (argv.length + 1) 0 true (malloc Token bufsize) p

/-- Whether a token is one of the redirection operators `"<"` and `">"`. -/
def isRedirOp (t : Token) : Bool := t == ltTok || t == gtTok

/-- The tokens of a stage that are neither a redirection operator nor the operand immediately
following one, in their original order.  The flag says that the token before was an operator,
so that the next token is its operand. -/
def residualFrom : Bool → List Token → List Token
  | _, [] => []
  | true, _ :: rest => residualFrom false rest
  | false, a :: rest =>
    if isRedirOp a then residualFrom true rest else a :: residualFrom false rest

/-- The tokens of a stage that are neither a redirection operator nor the operand immediately
following one, in their original order. -/
def residualTokens (ts : List Token) : List Token := residualFrom false ts

/-- Every redirection operator is immediately followed by an operand token, that is, by a token
that is not itself an operator.  The flag says that the token before was an operator. -/
def operandsFrom : Bool → List Token → Bool
  | pending, [] => !pending
  | true, b :: rest => !isRedirOp b && operandsFrom false rest
  | false, a :: rest => operandsFrom (isRedirOp a) rest

/-- Every redirection operator of the stage is immediately followed by an operand token. -/
def operandsPresent (ts : List Token) : Bool := operandsFrom false ts

/-! ## Process runner and dispatcher: `run`, `execute` -/

/-- What the child created by `run` does: the system calls issued by `redirect`, the
descriptor table it holds when it calls `execvp(file, argv)`, the two arguments of that call,
whether the call replaced the program image, the text the child prints itself when `execvp`
returns, and its exit status (`none` when it never terminates). -/
structure Child where
  trace : List Sys
  fds : FdTable
  file : Token
  argv : Buf Token
  replaced : Bool
  printed : List Char
  exit : Option Nat
  deriving DecidableEq, Repr

/-- What the interpreter process does, as seen from outside: the call of a built-in handler, the
creation of a child (`spawn` with what the child does, `spawnFaulted` when the behaviour of the
child is undefined), the end of the wait for a child with the status collected, and
`perror`. -/
inductive Event
  | builtin (i : Nat) (argv : Buf Token)
  | spawn (pid : Nat) (child : Child)
  | spawnFaulted (pid : Nat) (fault : Fault)
  | reaped (pid : Nat) (status : Nat)
  | perror (tag : List Char)
  deriving DecidableEq, Repr

/-- How a call made by the interpreter ends: it returns a status, it terminates the interpreter
process with `exit(code)`, or it blocks forever. -/
inductive Outcome
  | returned (status : Int)
  | exited (code : Int)
  | blocked
  deriving DecidableEq, Repr

/-- The interpreter process: its descriptor table, what it has done so far, and the state `user`
owned by the built-in handlers. -/
structure Shell (σ : Type) where
  fds : FdTable
  events : List Event
  user : σ
  deriving DecidableEq

/-- The end of the child branch of `run`, in the process `p` that `redirect` left and with the
array `new_argv` it returned: `execvp(*argv, argv); printf(..); exit(1);`.
When the system cannot execute the file, `execvp` returns without having used the argument
vector, and the child prints the diagnostic and exits with status 1.  When it can, the program
is started with the arguments read from the vector, which must then be terminated. -/
def exec_call (os : Os) (new_argv : Buf Token) (p : Proc) : Except Fault Child :=
  match load new_argv 0 with
  | .error e => .error e
  | .ok none => .error .nullDeref
  | .ok (some file) =>
    if os.canExec file then
      match readVec new_argv with
      | .error e => .error e
      | .ok args =>
        .ok { trace := p.trace, fds := p.fds, file := file, argv := new_argv,
              replaced := true, printed := [], exit := os.exitCode file args }
    else
      .ok { trace := p.trace, fds := p.fds, file := file, argv := new_argv,
            replaced := false,
            printed := "mash: command not found: ".toList ++ file ++ ['\n'],
            exit := some 1 }

/-- The child branch of `run` (`pid == 0`), started with a copy of the descriptor table of the
interpreter: `argv = redirect(argv);` and then the `execvp` call on what `redirect` returned. -/
def run_child (os : Os) (fds : FdTable) (argv : Buf Token) : Except Fault Child :=
  match redirect os { fds := fds, trace := [] } argv with
  | .error e => .error e
  | .ok (new_argv, p) => exec_call os new_argv p

/-- Source function `run`, lines 117-133.  The parent branch only waits for the child and
returns 1: whatever the child does, its own undefined behaviour included, stays in the child,
and the interpreter sees nothing of it but the moment it ends. -/
def run {σ : Type} (os : Os) (sh : Shell σ) (argv : Buf Token) :
    Except Fault (Outcome × Shell σ) :=
  match os.forkPid with
  | none =>
    .ok (.exited 1,
      { fds := sh.fds, events := sh.events ++ [Event.perror "mash".toList], user := sh.user })
  | some pid =>
    match run_child os sh.fds argv with
    | .error e =>
      match os.crashStatus e with
      | none =>
        .ok (.blocked,
          { fds := sh.fds, events := sh.events ++ [Event.spawnFaulted pid e],
            user := sh.user })
      | some status =>
        .ok (.returned 1,
          { fds := sh.fds,
            events := sh.events ++ [Event.spawnFaulted pid e, Event.reaped pid status],
            user := sh.user })
    | .ok child =>
      match child.exit with
      | none =>
        .ok (.blocked,
          { fds := sh.fds, events := sh.events ++ [Event.spawn pid child], user := sh.user })
      | some status =>
        .ok (.returned 1,
          { fds := sh.fds,
            events := sh.events ++ [Event.spawn pid child, Event.reaped pid status],
            user := sh.user })

/-- A built-in handler `int f(char** argv)`: it may read and change the state `σ` it owns. -/
abbrev Handler (σ : Type) := Buf Token → σ → Int × σ

/-- The `while (command_labels[i] != NULL)` scan of `execute`: the first index, counted from
`i`, whose label equals `name` under `strcmp`. -/
def find_label (name : Token) : List Token → Nat → Option Nat
  | [], _ => none
  | label :: labels, i => if name = label then some i else find_label name labels (i + 1)

/-- Source function `execute`, lines 141-153.  The table of `commands.h` is a parameter: the
labels before the terminating `NULL` of `command_labels`, and the array `command_functions`. -/
def execute {σ : Type} (command_labels : List Token) (command_functions : List (Handler σ))
    (os : Os) (sh : Shell σ) (argv : Buf Token) : Except Fault (Outcome × Shell σ) :=
  match load argv 0 with
  | .error e => .error e
  | .ok none => .ok (.returned 1, sh)
  | .ok (some name) =>
    match find_label name command_labels 0 with
    | some i =>
      match command_functions.get? i with
      | none => .error .outOfBounds
      | some handler =>
        .ok (.returned (handler argv sh.user).1,
          { fds := sh.fds, events := sh.events ++ [Event.builtin i argv],
            user := (handler argv sh.user).2 })
    | none => run os sh argv

/-! ## One line of the interactive loop -/

/-- How processing one line ends: the stages are done and `status` holds the given value
(`none`: never assigned), or a stage terminated or blocked the interpreter. -/
inductive LineEnd
  | done (status : Option Int)
  | exited (code : Int)
  | blocked
  deriving DecidableEq, Repr

/-- The stage iteration of `loop`, lines 179-183:
`while (commands[i] != NULL && status) { status = execute(commands[i]); i++; }`.
`status` is `none` as long as the local variable has not been assigned. -/
def run_stages {σ : Type} (command_labels : List Token) (command_functions : List (Handler σ))
    (os : Os) (commands : Buf (Buf Token)) :
    Nat → Nat → Option Int → Shell σ → Except Fault (LineEnd × Shell σ)
  | 0, _, _, _ => .error .outOfFuel
  | fuel + 1, i, status, sh =>
    match load commands i with
    | .error e => .error e
    | .ok none => .ok (.done status, sh)
    | .ok (some stage) =>
      match status with
      | none => .error .uninitRead
      | some s =>
        if s = 0 then .ok (.done status, sh)
        else
          match execute command_labels command_functions os sh stage with
          | .error e => .error e
          | .ok (.returned s1, sh1) =>
            run_stages command_labels command_functions os commands fuel (i + 1) (some s1) sh1
          | .ok (.exited code, sh1) => .ok (.exited code, sh1)
          | .ok (.blocked, sh1) => .ok (.blocked, sh1)

/-- The body of the `do` loop of `loop` from the tokenizer on, lines 177-183, for the line just
read. -/
def loop_body {σ : Type} (command_labels : List Token) (command_functions : List (Handler σ))
    (os : Os) (status : Option Int) (sh : Shell σ) (line : List Char) :
    Except Fault (LineEnd × Shell σ) :=
  match split_into_tokens line with
  | .error e => .error e
  | .ok argv =>
    match split_into_commands argv with
    | .error e => .error e
    | .ok (commands, _) =>
      run_stages command_labels command_functions os commands (commands.length + 1) 0 status sh

/-! ## The interactive loop: `get_input`, `loop`, `main` -/

/-- Source function `get_input`, lines 22-27, on the lines that standard input still holds: the
line obtained and the input that remains.  The value returned by `getline` is not looked at: at
end of input the function still returns `line`, a buffer that `getline` did not fill, which is
`none` here. -/
def get_input : List (List Char) → Option (List Char) × List (List Char)
  | [] => (none, [])
  | line :: rest => (some line, rest)

/-- The `do { .. } while (status);` of `loop`, lines 165-187, followed by `return status;`.
The rendering of the prompt is left out.  `status` is `none` as long as the local variable has
not been assigned; tokenizing a buffer that `getline` did not fill, and testing a `status` that
was never assigned, are faults. -/
def loop_iter {σ : Type} (command_labels : List Token) (command_functions : List (Handler σ))
    (os : Os) : Nat → Option Int → Shell σ → List (List Char) → Except Fault (Outcome × Shell σ)
  | 0, _, _, _ => .error .outOfFuel
  | fuel + 1, status, sh, input =>
    match (get_input input).1 with
    | none => .error .uninitRead
    | some line =>
      match loop_body command_labels command_functions os status sh line with
      | .error e => .error e
      | .ok (.exited code, sh1) => .ok (.exited code, sh1)
      | .ok (.blocked, sh1) => .ok (.blocked, sh1)
      | .ok (.done none, _) => .error .uninitRead
      | .ok (.done (some s), sh1) =>
        if s = 0 then .ok (.returned s, sh1)
        else loop_iter command_labels command_functions os fuel (some s) sh1 (get_input input).2

/-- Source function `loop`, lines 160-189: the local `status` starts unassigned. -/
def loop {σ : Type} (command_labels : List Token) (command_functions : List (Handler σ))
    (os : Os) (fuel : Nat) (sh : Shell σ) (input : List (List Char)) :
    Except Fault (Outcome × Shell σ) :=
  loop_iter command_labels command_functions os fuel none sh input

/-- Source function `main`, lines 197-199: `return loop();`. -/
def main {σ : Type} (command_labels : List Token) (command_functions : List (Handler σ))
    (os : Os) (fuel : Nat) (sh : Shell σ) (input : List (List Char)) :
    Except Fault (Outcome × Shell σ) :=
  loop command_labels command_functions os fuel sh input

/-! ## Closed forms of the `redirect` loop, used to reason about it -/

/-- The array `new_argv` after the loop of `redirect` has gone through the tokens `ts`, the
first of which has index `i`. -/
def fillBuf : List Token → Nat → Bool → Buf Token → Buf Token
  | [], _, _, new_argv => new_argv
  | a :: rest, i, new_arg, new_argv =>
    if a = ltTok then fillBuf rest (i + 1) false (new_argv.set i .null)
    else if a = gtTok then fillBuf rest (i + 1) false (new_argv.set i .null)
    else if new_arg then fillBuf rest (i + 1) new_arg (new_argv.set i (.ptr a))
    else fillBuf rest (i + 1) new_arg new_argv

/-- The three calls `open`, `dup2`, `close` that `redirect` issues for one operator: `path` is
the element after the operator and `target` the descriptor to rebind. -/
def bindStream (os : Os) (p : Proc) (path : Option Token) (flags : Nat) (mode : Option Nat)
    (target : Int) : Proc :=
  sys_close (sys_dup2 (sys_open os p path flags mode).2 (sys_open os p path flags mode).1 target)
    (sys_open os p path flags mode).1

/-- The process after the loop of `redirect` has gone through the tokens `ts`, which are
followed by the end marker. -/
def redirEffects (os : Os) : Proc → List Token → Proc
  | p, [] => p
  | p, a :: rest =>
    if a = ltTok then redirEffects os (bindStream os p rest.head? O_RDONLY none 0) rest
    else if a = gtTok then
      redirEffects os (bindStream os p rest.head? outFlags (some outMode) 1) rest
    else redirEffects os p rest

/-- The `open` calls that the loop of `redirect` issues on the tokens `ts`, in order: for each
operator the path it passes (the element after the operator), the flags, the mode, and the
descriptor that the following `dup2` targets. -/
def redirCalls : List Token → List (Option Token × Nat × Option Nat × Int)
  | [] => []
  | a :: rest =>
    if a = ltTok then (rest.head?, O_RDONLY, none, 0) :: redirCalls rest
    else if a = gtTok then (rest.head?, outFlags, some outMode, 1) :: redirCalls rest
    else redirCalls rest

/-- The system calls of `redirect` for the given `open` calls when each `open` returns -1:
the `open`, then `dup2` and `close` on -1. -/
def failedCalls : List (Option Token × Nat × Option Nat × Int) → List Sys
  | [] => []
  | (path, flags, mode, target) :: rest =>
    Sys.sopen path flags mode (-1) :: Sys.dup2 (-1) target (-1) :: Sys.close (-1) (-1)
      :: failedCalls rest

/-- The 64-slot array that `split_into_tokens` returns for the tokens `ts`. -/
def tokenBuf (ts : List Token) : Buf Token := vec ts ++ malloc Token (63 - ts.length)

/-- The argument list that `execvp` reads from the array returned by `redirect`: the residual
argv of the stage. -/
def redirect_argv (os : Os) (p : Proc) (argv : Buf Token) : Except Fault (List Token) :=
  match redirect os p argv with
  | .error e => .error e
  | .ok (new_argv, _) => readVec new_argv

/-! ## Concrete environments for the examples -/

/-- The terminal the interpreter is started on, open for reading and writing. -/
def tty : OpenFile := { path := "/dev/tty".toList, flags := 2 }

/-- A process with the three standard streams bound to the terminal. -/
def stdProc : Proc := { fds := [some tty, some tty, some tty], trace := [] }

/-- An interpreter with the three standard streams bound to the terminal and no handler
state. -/
def stdShell : Shell Unit := { fds := [some tty, some tty, some tty], events := [], user := () }

/-- A system in which every call succeeds: files open, `fork` returns pid 100, programs are
found and exit with status 0. -/
def okOs : Os :=
  { canOpen := fun _ _ => true, forkPid := some 100, canExec := fun _ => true,
    exitCode := fun _ _ => some 0, crashStatus := fun _ => some 139 }

/-- A system in which no file can be opened; everything else succeeds. -/
def denyOs : Os :=
  { canOpen := fun _ _ => false, forkPid := some 100, canExec := fun _ => true,
    exitCode := fun _ _ => some 0, crashStatus := fun _ => some 139 }

/-- A system in which `fork` fails; everything else succeeds. -/
def noForkOs : Os :=
  { canOpen := fun _ _ => true, forkPid := none, canExec := fun _ => true,
    exitCode := fun _ _ => some 0, crashStatus := fun _ => some 139 }

/-- A system in which no program can be executed; everything else succeeds. -/
def notFoundOs : Os :=
  { canOpen := fun _ _ => true, forkPid := some 100, canExec := fun _ => false,
    exitCode := fun _ _ => some 0, crashStatus := fun _ => some 139 }

/-- A system in which every program that is executed exits with status 3. -/
def exit3Os : Os :=
  { canOpen := fun _ _ => true, forkPid := some 100, canExec := fun _ => true,
    exitCode := fun _ _ => some 3, crashStatus := fun _ => some 139 }

/-- A built-in table with the single label `exit`, whose handler returns the terminating
status 0. -/
def exitLabels : List Token := ["exit".toList]

/-- The handlers of `exitLabels`. -/
def exitFunctions : List (Handler Unit) := [fun _ u => (0, u)]

/-- A system in which every file but `missing` can be opened; everything else succeeds. -/
def missingOs : Os :=
  { canOpen := fun f _ => f != "missing".toList, forkPid := some 100, canExec := fun _ => true,
    exitCode := fun _ _ => some 0, crashStatus := fun _ => some 139 }
/-! ## Lemmas on the memory model -/

theorem store_append_uninit {α : Type} (pre : Buf α) (m : Nat) (v : Slot α) :
    store (pre ++ List.replicate (m + 1) Slot.uninit) pre.length v
      = .ok (pre ++ v :: List.replicate m Slot.uninit) := by
  unfold store
  have hlt : pre.length < (pre ++ List.replicate (m + 1) Slot.uninit).length := by
    simp
  rw [if_pos hlt]
  congr 1
  induction pre with
  | nil => simp [List.replicate_succ]
  | cons a pre ih =>
    simp only [List.cons_append, List.length_cons, List.set_cons_succ]
    rw [ih (by simp)]

/-! ## Lemmas on `strtok` -/

theorem dropWhile_delims (ds s : List Char) (hds : ∀ c ∈ ds, isDelim c = true) :
    (ds ++ s).dropWhile isDelim = s.dropWhile isDelim := by
  induction ds with
  | nil => rfl
  | cons d ds ih =>
    have hd : isDelim d = true := hds d (List.mem_cons_self d ds)
    simp only [List.cons_append, List.dropWhile_cons, hd, if_true]
    exact ih (fun c hc => hds c (List.mem_cons_of_mem d hc))

theorem strtok_delims (ds s : List Char) (hds : ∀ c ∈ ds, isDelim c = true) :
    strtok (ds ++ s) = strtok s := by
  unfold strtok
  rw [dropWhile_delims ds s hds]

theorem strtok_only_delims (ds : List Char) (hds : ∀ c ∈ ds, isDelim c = true) :
    strtok ds = none := by
  have h := strtok_delims ds [] hds
  rw [List.append_nil] at h
  rw [h]
  rfl

theorem takeWhile_token (t rest : List Char) (ht : ∀ c ∈ t, isDelim c = false)
    (hmax : rest = [] ∨ ∃ d r, rest = d :: r ∧ isDelim d = true) :
    (t ++ rest).takeWhile (fun x => !isDelim x) = t := by
  induction t with
  | nil =>
    rcases hmax with rfl | ⟨d, r, rfl, hd⟩
    · rfl
    · simp [List.takeWhile_cons, hd]
  | cons a t ih =>
    have ha : isDelim a = false := ht a (List.mem_cons_self a t)
    simp only [List.cons_append, List.takeWhile_cons, ha, Bool.not_false, if_true]
    rw [ih (fun c hc => ht c (List.mem_cons_of_mem a hc))]

theorem dropWhile_token (t rest : List Char) (ht : ∀ c ∈ t, isDelim c = false)
    (hmax : rest = [] ∨ ∃ d r, rest = d :: r ∧ isDelim d = true) :
    (t ++ rest).dropWhile (fun x => !isDelim x) = rest := by
  induction t with
  | nil =>
    rcases hmax with rfl | ⟨d, r, rfl, hd⟩
    · rfl
    · simp [List.dropWhile_cons, hd]
  | cons a t ih =>
    have ha : isDelim a = false := ht a (List.mem_cons_self a t)
    simp only [List.cons_append, List.dropWhile_cons, ha, Bool.not_false, if_true]
    exact ih (fun c hc => ht c (List.mem_cons_of_mem a hc))

theorem strtok_token (t rest : List Char) (hne : t ≠ []) (ht : ∀ c ∈ t, isDelim c = false)
    (hmax : rest = [] ∨ ∃ d r, rest = d :: r ∧ isDelim d = true) :
    strtok (t ++ rest) = some (t, rest.tail) := by
  cases t with
  | nil => exact absurd rfl hne
  | cons a t =>
    have ha : isDelim a = false := ht a (List.mem_cons_self a t)
    have h1 : ((a :: t) ++ rest).dropWhile isDelim = a :: (t ++ rest) := by
      simp [List.dropWhile_cons, ha]
    unfold strtok
    rw [h1]
    have h2 := takeWhile_token (a :: t) rest ht hmax
    have h3 := dropWhile_token (a :: t) rest ht hmax
    simp only [List.cons_append] at h2 h3
    simp only [h2, h3]

theorem strtok_tail (rest : List Char)
    (hmax : rest = [] ∨ ∃ d r, rest = d :: r ∧ isDelim d = true) :
    strtok rest.tail = strtok rest := by
  rcases hmax with rfl | ⟨d, r, rfl, hd⟩
  · rfl
  · have h := strtok_delims [d] r (by simpa using hd)
    simpa using h.symm

theorem split_into_tokens_loop_runs (s : List Char) (ts : List Token)
    (hruns : MaximalRuns s ts) :
    ∀ (fuel : Nat) (pre : Buf Token) (m : Nat), s.length < fuel → ts.length < m →
      split_into_tokens_loop fuel (strtok s) pre.length
          (pre ++ List.replicate m Slot.uninit)
        = .ok (pre ++ vec ts ++ List.replicate (m - ts.length - 1) Slot.uninit) := by
  induction hruns with
  | done ds hds =>
    intro fuel pre m hfuel hm
    obtain ⟨f, rfl⟩ : ∃ f, fuel = f + 1 := ⟨fuel - 1, by omega⟩
    obtain ⟨k, rfl⟩ : ∃ k, m = k + 1 := ⟨m - 1, by simp at hm; omega⟩
    rw [strtok_only_delims ds hds]
    simp only [split_into_tokens_loop]
    rw [store_append_uninit]
    simp [vec]
  | run ds t rest ts hds hne ht hmax hrest ih =>
    intro fuel pre m hfuel hm
    obtain ⟨f, rfl⟩ : ∃ f, fuel = f + 1 := ⟨fuel - 1, by omega⟩
    obtain ⟨k, rfl⟩ : ∃ k, m = k + 1 := ⟨m - 1, by simp at hm; omega⟩
    have htl : 0 < t.length := List.length_pos.mpr hne
    rw [List.append_assoc, strtok_delims ds (t ++ rest) hds, strtok_token t rest hne ht hmax]
    simp only [split_into_tokens_loop]
    rw [store_append_uninit]
    simp only []
    rw [strtok_tail rest hmax]
    have hlen : (pre ++ [Slot.ptr t]).length = pre.length + 1 := by simp
    have e1 : pre ++ Slot.ptr t :: List.replicate k Slot.uninit
        = (pre ++ [Slot.ptr t]) ++ List.replicate k Slot.uninit := by simp
    rw [e1, ← hlen]
    rw [ih f (pre ++ [Slot.ptr t]) k (by simp at hfuel; omega) (by simp at hm; omega)]
    simp [vec]

theorem maximalRuns_tokens (s : List Char) (ts : List Token) (hruns : MaximalRuns s ts) :
    ∀ t ∈ ts, t ≠ [] ∧ ∀ c ∈ t, isDelim c = false := by
  induction hruns with
  | done ds hds => intro t ht; cases ht
  | run ds t rest ts hds hne ht hmax hrest ih =>
    intro u hu
    rcases List.mem_cons.mp hu with rfl | hu
    · exact ⟨hne, ht⟩
    · exact ih u hu

theorem maximalRuns_only_delims (s : List Char) (ts : List Token) (hruns : MaximalRuns s ts)
    (hall : ∀ c ∈ s, isDelim c = true) : ts = [] := by
  cases hruns with
  | done ds hds => rfl
  | run ds t rest ts hds hne ht hmax hrest =>
    cases t with
    | nil => exact absurd rfl hne
    | cons a t =>
      have h1 : isDelim a = true := hall a (by simp)
      have h2 : isDelim a = false := ht a (List.mem_cons_self a t)
      rw [h1] at h2
      cases h2

theorem maximalRuns_exists (s : List Char) : ∃ ts, MaximalRuns s ts := by
  obtain ⟨n, hn⟩ : ∃ n, s.length = n := ⟨_, rfl⟩
  induction n using Nat.strong_induction_on generalizing s with
  | _ n ih =>
    cases h1 : s.dropWhile isDelim with
    | nil =>
      refine ⟨[], MaximalRuns.done s ?_⟩
      intro c hc
      have h2 : s.takeWhile isDelim = s := by
        have := List.takeWhile_append_dropWhile isDelim s
        rw [h1, List.append_nil] at this
        exact this
      rw [← h2] at hc
      exact (List.mem_takeWhile_imp hc)
    | cons a r =>
      have ha : isDelim a = false := by
        have := List.head_dropWhile_not isDelim s (by rw [h1]; simp)
        simpa [h1] using this
      have hsplit : s = s.takeWhile isDelim ++ (a :: r) := by
        rw [← h1]; exact (List.takeWhile_append_dropWhile isDelim s).symm
      have hsplit2 : a :: r = (a :: r).takeWhile (fun x => !isDelim x)
          ++ (a :: r).dropWhile (fun x => !isDelim x) :=
        (List.takeWhile_append_dropWhile _ _).symm
      have hlen : ((a :: r).dropWhile (fun x => !isDelim x)).length < n := by
        have h3 : ((a :: r).dropWhile (fun x => !isDelim x)).length ≤ r.length := by
          simp only [List.dropWhile_cons, ha, Bool.not_false, if_true]
          exact (List.dropWhile_sublist _).length_le
        have h4 : s.length = (s.takeWhile isDelim).length + (r.length + 1) := by
          conv_lhs => rw [hsplit]
          simp
        omega
      obtain ⟨ts, hts⟩ := ih _ hlen _ rfl
      refine ⟨(a :: r).takeWhile (fun x => !isDelim x) :: ts, ?_⟩
      have key := MaximalRuns.run (s.takeWhile isDelim)
        ((a :: r).takeWhile (fun x => !isDelim x))
        ((a :: r).dropWhile (fun x => !isDelim x)) ts
        (fun c hc => List.mem_takeWhile_imp hc)
        (by simp [List.takeWhile_cons, ha])
        (fun c hc => by simpa using List.mem_takeWhile_imp hc)
        (by
          cases h5 : (a :: r).dropWhile (fun x => !isDelim x) with
          | nil => exact Or.inl rfl
          | cons d q =>
            refine Or.inr ⟨d, q, rfl, ?_⟩
            have := List.head_dropWhile_not (fun x => !isDelim x) (a :: r) (by rw [h5]; simp)
            simpa [h5] using this)
        hts
      rw [List.append_assoc, ← hsplit2, ← hsplit] at key
      exact key

/-! ## C1: the tokenizer -/

/-- C1. For every input line whose maximal runs of non-delimiter characters `ts` number at most
63, `split_into_tokens` returns the buffer holding exactly `ts`, in order, followed by the end
marker (the remaining slots of the 64-slot array stay unwritten); no token is empty, no token
contains a delimiter, and a line of delimiters only yields the zero-length sequence. -/
theorem split_into_tokens_maximal_runs (line : List Char) (ts : List Token)
    (hruns : MaximalRuns (cstr line) ts) (hcap : ts.length ≤ 63) :
    split_into_tokens line = .ok (vec ts ++ malloc Token (63 - ts.length))
      ∧ (∀ t ∈ ts, t ≠ [] ∧ ∀ c ∈ t, isDelim c = false)
      ∧ ((∀ c ∈ cstr line, isDelim c = true) → ts = []) := by
  refine ⟨?_, maximalRuns_tokens _ _ hruns, maximalRuns_only_delims _ _ hruns⟩
  have h := split_into_tokens_loop_runs (cstr line) ts hruns ((cstr line).length + 1) [] 64
    (by omega) (by omega)
  simp only [List.nil_append, List.length_nil] at h
  unfold split_into_tokens malloc bufsize
  rw [h]
  have e : 64 - ts.length - 1 = 63 - ts.length := by omega
  rw [e]

/-- The spec example: tokenizing `"  ls  -la   /tmp "` yields `["ls", "-la", "/tmp"]`. -/
theorem split_into_tokens_maximal_runs_witness :
    MaximalRuns (cstr "  ls  -la   /tmp ".toList) ["ls".toList, "-la".toList, "/tmp".toList]
      ∧ split_into_tokens "  ls  -la   /tmp ".toList
          = .ok (vec ["ls".toList, "-la".toList, "/tmp".toList] ++ malloc Token 60) :=
  have hruns : MaximalRuns (cstr "  ls  -la   /tmp ".toList)
      ["ls".toList, "-la".toList, "/tmp".toList] :=
    MaximalRuns.run "  ".toList "ls".toList "  -la   /tmp ".toList _
      (by decide) (by decide) (by decide) (Or.inr ⟨' ', " -la   /tmp ".toList, rfl, by decide⟩)
      (MaximalRuns.run "  ".toList "-la".toList "   /tmp ".toList _
        (by decide) (by decide) (by decide) (Or.inr ⟨' ', "  /tmp ".toList, rfl, by decide⟩)
        (MaximalRuns.run "   ".toList "/tmp".toList " ".toList _
          (by decide) (by decide) (by decide) (Or.inr ⟨' ', [], rfl, by decide⟩)
          (MaximalRuns.done " ".toList (by decide))))
  ⟨hruns, (split_into_tokens_maximal_runs _ _ hruns (by decide)).1⟩

/-! ## C2: the pipeline splitter -/

theorem load_malloc_error (α : Type) (n k : Nat) :
    ∃ e, load (malloc α n) k = .error e := by
  unfold load malloc
  by_cases h : k < n
  · refine ⟨.uninitRead, ?_⟩
    have : (List.replicate n (Slot.uninit : Slot α)).get? k = some Slot.uninit := by
      simp [List.getElem?_replicate, h]
    rw [this]
  · refine ⟨.outOfBounds, ?_⟩
    have : (List.replicate n (Slot.uninit : Slot α)).get? k = none := by
      simp [List.getElem?_replicate, h]
    rw [this]

theorem split_into_commands_loop_untouched (tokens : Buf Token) (fuel : Nat) :
    ∀ i j k : Nat,
      (∃ e, split_into_commands_loop tokens fuel i j k (malloc (Buf Token) bufsize) = .error e)
      ∨ (∃ n, split_into_commands_loop tokens fuel i j k (malloc (Buf Token) bufsize)
            = .ok (malloc (Buf Token) bufsize, n)) := by
  induction fuel with
  | zero => intro i j k; exact Or.inl ⟨_, rfl⟩
  | succ fuel ih =>
    intro i j k
    unfold split_into_commands_loop
    cases hl : load tokens i with
    | error e => exact Or.inl ⟨e, rfl⟩
    | ok o =>
      cases o with
      | none => exact Or.inr ⟨i, rfl⟩
      | some t =>
        by_cases hp : t = pipeTok
        · simp only [if_pos hp]
          exact ih (i + 1) 0 (k + 1)
        · simp only [if_neg hp]
          obtain ⟨e, he⟩ := load_malloc_error (Buf Token) bufsize k
          rw [he]
          exact Or.inl ⟨e, rfl⟩

/-- C2 (code bug). On the tokens `["ls","|","grep","foo"]` the function `split_into_commands`
does not yield the stages `["ls"]` and `["grep","foo"]`: the first assignment
`commands[0][0] = tokens[0]` goes through the row pointer `commands[0]`, which was never
initialised, so the call is a fault.  In general the function never writes the stage array:
on every token array it either faults or returns the array exactly as `malloc` gave it, with
no stage, no stage end marker and no end marker of the stage list. -/
theorem split_into_commands_never_builds_stages :
    split_into_commands (tokenBuf ["ls".toList, "|".toList, "grep".toList, "foo".toList])
        = .error .uninitRead
      ∧ ∀ tokens : Buf Token,
          (∃ e, split_into_commands tokens = .error e)
          ∨ (∃ tokens1, split_into_commands tokens
                = .ok (malloc (Buf Token) bufsize, tokens1)) := by
  refine ⟨rfl, ?_⟩
  intro tokens
  unfold split_into_commands
  rcases split_into_commands_loop_untouched tokens (tokens.length + 1) 0 0 0 with
    ⟨e, he⟩ | ⟨n, hn⟩
  · rw [he]; exact Or.inl ⟨e, rfl⟩
  · rw [hn]
    simp only []
    cases hs : store tokens n Slot.null with
    | error e => exact Or.inl ⟨e, rfl⟩
    | ok tokens1 => exact Or.inr ⟨tokens1, rfl⟩

/-! ## Lemmas on vectors -/

theorem load_vec_at {α : Type} (pre : List α) (a : α) (rest : List α) :
    load (vec (pre ++ a :: rest)) pre.length = .ok (some a) := by
  unfold load vec
  have h : (List.map Slot.ptr (pre ++ a :: rest) ++ [Slot.null]).get? pre.length
      = some (Slot.ptr a) := by
    induction pre with
    | nil => rfl
    | cons b pre ih => simpa using ih
  rw [h]

theorem load_vec_end {α : Type} (ts : List α) :
    load (vec ts) ts.length = .ok none := by
  unfold load vec
  have h : (List.map Slot.ptr ts ++ [Slot.null]).get? ts.length = some Slot.null := by
    induction ts with
    | nil => rfl
    | cons b ts ih => simp
  rw [h]

theorem load_vec_next {α : Type} (pre : List α) (a : α) (rest : List α) :
    load (vec (pre ++ a :: rest)) (pre.length + 1) = .ok rest.head? := by
  cases rest with
  | nil =>
    have h := load_vec_end (pre ++ [a])
    simpa using h
  | cons b rest =>
    have h := load_vec_at (pre ++ [a]) b rest
    simpa using h

theorem readVec_vec_append {α : Type} (ts : List α) (tail : Buf α) :
    readVec (vec ts ++ tail) = .ok ts := by
  induction ts with
  | nil => rfl
  | cons a ts ih =>
    have e : vec (a :: ts) ++ tail = Slot.ptr a :: (vec ts ++ tail) := rfl
    rw [e, readVec, ih]

theorem readVec_ptrs_uninit {α : Type} (ts : List α) (n : Nat) :
    readVec (ts.map Slot.ptr ++ List.replicate (n + 1) Slot.uninit) = .error .uninitRead := by
  induction ts with
  | nil => rfl
  | cons a ts ih =>
    have e : List.map Slot.ptr (a :: ts) ++ List.replicate (n + 1) Slot.uninit
        = Slot.ptr a :: (List.map Slot.ptr ts ++ List.replicate (n + 1) Slot.uninit) := rfl
    rw [e, readVec, ih]

/-! ## Lemmas on the `redirect` loop -/

theorem redirect_loop_eq (os : Os) (rest : List Token) :
    ∀ (pre : List Token) (fuel : Nat) (new_arg : Bool) (new_argv : Buf Token) (p : Proc),
      rest.length < fuel → pre.length + rest.length ≤ new_argv.length →
      redirect_loop os (vec (pre ++ rest)) fuel pre.length new_arg new_argv p
        = .ok (fillBuf rest pre.length new_arg new_argv, redirEffects os p rest) := by
  induction rest with
  | nil =>
    intro pre fuel new_arg new_argv p hfuel _
    obtain ⟨f, rfl⟩ : ∃ f, fuel = f + 1 := ⟨fuel - 1, by simp at hfuel; omega⟩
    simp only [redirect_loop, List.append_nil, load_vec_end, fillBuf, redirEffects]
  | cons a rest ih =>
    intro pre fuel new_arg new_argv p hfuel hlen
    obtain ⟨f, rfl⟩ : ∃ f, fuel = f + 1 := ⟨fuel - 1, by simp at hfuel; omega⟩
    have hf : rest.length < f := by simp at hfuel; omega
    have hi : pre.length < new_argv.length := by simp at hlen; omega
    have e : pre ++ a :: rest = (pre ++ [a]) ++ rest := by simp
    have hl : (pre ++ [a]).length = pre.length + 1 := by simp
    have hstore : ∀ v : Slot Token, store new_argv pre.length v = .ok (new_argv.set pre.length v) := by
      intro v; unfold store; rw [if_pos hi]
    have hlen2 : ∀ v : Slot Token,
        (pre ++ [a]).length + rest.length ≤ (new_argv.set pre.length v).length := by
      intro v; simp at hlen ⊢; omega
    have hlen3 : (pre ++ [a]).length + rest.length ≤ new_argv.length := by
      simp at hlen ⊢; omega
    simp only [redirect_loop, load_vec_at, load_vec_next, hstore, fillBuf, redirEffects,
      bindStream]
    rw [e, ← hl]
    by_cases h1 : a = ltTok
    · simp only [if_pos h1]
      exact ih _ _ _ _ _ hf (hlen2 _)
    · simp only [if_neg h1]
      by_cases h2 : a = gtTok
      · simp only [if_pos h2]
        exact ih _ _ _ _ _ hf (hlen2 _)
      · simp only [if_neg h2]
        cases new_arg with
        | true =>
          simp only [if_true]
          exact ih _ _ _ _ _ hf (hlen2 _)
        | false =>
          simp only [Bool.false_eq_true, if_false]
          exact ih _ _ _ _ _ hf hlen3

theorem redirect_eq (os : Os) (p : Proc) (ts : List Token) (hlen : ts.length ≤ 64) :
    redirect os p (vec ts)
      = .ok (fillBuf ts 0 true (malloc Token bufsize), redirEffects os p ts) := by
  have h := redirect_loop_eq os ts [] ((vec ts).length + 1) true (malloc Token bufsize) p
    (by simp [vec]; omega) (by simp [malloc, bufsize]; exact hlen)
  simpa [redirect] using h

theorem isRedirOp_false_iff (a : Token) : isRedirOp a = false ↔ a ≠ ltTok ∧ a ≠ gtTok := by
  simp [isRedirOp]

theorem isRedirOp_true_iff (a : Token) : isRedirOp a = true ↔ a = ltTok ∨ a = gtTok := by
  simp [isRedirOp]

theorem set_append_uninit {α : Type} (front : Buf α) (m : Nat) (v : Slot α) :
    (front ++ List.replicate (m + 1) Slot.uninit).set front.length v
      = front ++ v :: List.replicate m Slot.uninit := by
  induction front with
  | nil => simp [List.replicate_succ]
  | cons a front ih =>
    simp only [List.cons_append, List.length_cons, List.set_cons_succ]
    rw [ih]

theorem take_set_le {α : Type} (l : List α) (i j : Nat) (v : α) (hji : j ≤ i) :
    (l.set i v).take j = l.take j := by
  induction l generalizing i j with
  | nil => simp
  | cons a l ih =>
    cases j with
    | zero => simp
    | succ j =>
      cases i with
      | zero => omega
      | succ i =>
        simp only [List.set_cons_succ, List.take_succ_cons]
        rw [ih i j (by omega)]

theorem fillBuf_plain (ts : List Token) (hts : ∀ t ∈ ts, isRedirOp t = false) :
    ∀ (front : Buf Token) (m : Nat) (rest : List Token), ts.length ≤ m →
      fillBuf (ts ++ rest) front.length true (front ++ List.replicate m Slot.uninit)
        = fillBuf rest (front.length + ts.length) true
            (front ++ ts.map Slot.ptr ++ List.replicate (m - ts.length) Slot.uninit) := by
  induction ts with
  | nil => intro front m rest _; simp
  | cons a ts ih =>
    intro front m rest hm
    obtain ⟨k, rfl⟩ : ∃ k, m = k + 1 := ⟨m - 1, by simp at hm; omega⟩
    have ha := (isRedirOp_false_iff a).mp (hts a (List.mem_cons_self a ts))
    have hl : (front ++ [Slot.ptr a]).length = front.length + 1 := by simp
    simp only [List.cons_append, fillBuf, if_neg ha.1, if_neg ha.2, if_true, List.append_eq]
    rw [set_append_uninit]
    have e : front ++ Slot.ptr a :: List.replicate k Slot.uninit
        = (front ++ [Slot.ptr a]) ++ List.replicate k Slot.uninit := by simp
    rw [e, ← hl, ih (fun t ht => hts t (List.mem_cons_of_mem a ht)) _ k rest
      (by simp at hm; omega)]
    simp only [List.length_append, List.length_singleton, List.length_cons, List.map_cons,
      List.append_assoc, List.singleton_append, Nat.add_sub_add_right, List.cons_append,
      List.nil_append, Nat.add_assoc, Nat.add_comm 1, List.length_nil, Nat.zero_add]

theorem fillBuf_frozen (rest : List Token) :
    ∀ (i j : Nat) (buf : Buf Token), j ≤ i →
      (fillBuf rest i false buf).take j = buf.take j := by
  induction rest with
  | nil => intro i j buf _; rfl
  | cons a rest ih =>
    intro i j buf hji
    simp only [fillBuf]
    by_cases h1 : a = ltTok
    · rw [if_pos h1, ih (i + 1) j _ (by omega), take_set_le _ _ _ _ hji]
    · rw [if_neg h1]
      by_cases h2 : a = gtTok
      · rw [if_pos h2, ih (i + 1) j _ (by omega), take_set_le _ _ _ _ hji]
      · rw [if_neg h2]
        simp only [Bool.false_eq_true, if_false]
        exact ih (i + 1) j _ (by omega)

theorem fillBuf_no_operator (ts : List Token) (hts : ∀ t ∈ ts, isRedirOp t = false)
    (hlen : ts.length ≤ 64) :
    fillBuf ts 0 true (malloc Token bufsize)
      = ts.map Slot.ptr ++ malloc Token (64 - ts.length) := by
  have h := fillBuf_plain ts hts [] 64 [] hlen
  simpa [fillBuf, malloc, bufsize] using h

theorem fillBuf_first_operator (front : List Token) (op : Token) (back : List Token)
    (hfront : ∀ t ∈ front, isRedirOp t = false) (hop : isRedirOp op = true)
    (hlen : (front ++ op :: back).length ≤ 64) :
    ∃ tail, fillBuf (front ++ op :: back) 0 true (malloc Token bufsize) = vec front ++ tail := by
  have hm : front.length < 64 := by simp at hlen; omega
  obtain ⟨k, hk⟩ : ∃ k, 64 - front.length = k + 1 := ⟨64 - front.length - 1, by omega⟩
  have h := fillBuf_plain front hfront [] 64 (op :: back) (by omega)
  simp only [List.length_nil, List.nil_append, Nat.zero_add] at h
  have hstep : fillBuf (op :: back) front.length true
      (front.map Slot.ptr ++ List.replicate (64 - front.length) Slot.uninit)
      = fillBuf back (front.length + 1) false
          (vec front ++ List.replicate k Slot.uninit) := by
    have hset : (front.map Slot.ptr ++ List.replicate (k + 1) Slot.uninit).set front.length
        Slot.null = front.map Slot.ptr ++ Slot.null :: List.replicate k Slot.uninit := by
      have := set_append_uninit (front.map Slot.ptr) k (Slot.null : Slot Token)
      simpa using this
    rw [hk]
    rcases (isRedirOp_true_iff op).mp hop with rfl | rfl
    · simp only [fillBuf, if_true, hset, vec, List.append_assoc, List.singleton_append]
    · have hne : ¬ gtTok = ltTok := by decide
      simp only [fillBuf, if_neg hne, if_true, hset, vec, List.append_assoc,
        List.singleton_append]
  have hfro := fillBuf_frozen back (front.length + 1) (front.length + 1)
    (vec front ++ List.replicate k Slot.uninit) (Nat.le_refl _)
  have hvl : (vec front).length = front.length + 1 := by simp [vec]
  rw [← hvl, List.take_left] at hfro
  refine ⟨(fillBuf back (front.length + 1) false
    (vec front ++ List.replicate k Slot.uninit)).drop (vec front).length, ?_⟩
  unfold malloc bufsize
  rw [h, hstep]
  conv_lhs => rw [← List.take_append_drop (vec front).length
    (fillBuf back (front.length + 1) false (vec front ++ List.replicate k Slot.uninit))]
  rw [hvl] at hfro ⊢
  rw [hfro]

theorem redirEffects_plain (os : Os) (p : Proc) (ts rest : List Token)
    (hts : ∀ t ∈ ts, isRedirOp t = false) :
    redirEffects os p (ts ++ rest) = redirEffects os p rest := by
  induction ts with
  | nil => rfl
  | cons a ts ih =>
    have ha := (isRedirOp_false_iff a).mp (hts a (List.mem_cons_self a ts))
    simp only [List.cons_append, redirEffects, if_neg ha.1, if_neg ha.2, List.append_eq]
    exact ih (fun t ht => hts t (List.mem_cons_of_mem a ht))

theorem redirEffects_no_operator (os : Os) (p : Proc) (ts : List Token)
    (hts : ∀ t ∈ ts, isRedirOp t = false) : redirEffects os p ts = p := by
  have h := redirEffects_plain os p ts [] hts
  simpa [redirEffects] using h

/-! ## Lemmas on descriptors and system calls -/

theorem getFd_nil (k : Nat) : getFd [] k = none := by
  cases k <;> rfl

theorem getFd_setFd (t : FdTable) (i : Nat) (v : Option OpenFile) (k : Nat) :
    getFd (setFd t i v) k = if k = i then v else getFd t k := by
  induction t generalizing i k with
  | nil =>
    induction i generalizing k with
    | zero =>
      cases k with
      | zero => rfl
      | succ k => simp [setFd, getFd, getFd_nil]
    | succ i ih =>
      cases k with
      | zero => simp [setFd, getFd]
      | succ k =>
        simp only [setFd, getFd, ih k, getFd_nil]
        simp
  | cons x t ih =>
    cases i with
    | zero =>
      cases k with
      | zero => rfl
      | succ k => simp [setFd, getFd]
    | succ i =>
      cases k with
      | zero => simp [setFd, getFd]
      | succ k =>
        simp only [setFd, getFd, ih i k]
        simp

theorem getFd_lowestFree (t : FdTable) : getFd t (lowestFree t) = none := by
  induction t with
  | nil => rfl
  | cons x t ih =>
    cases x with
    | none => rfl
    | some f => simpa [lowestFree, getFd] using ih

theorem sys_open_fail (os : Os) (p : Proc) (path : Option Token) (flags : Nat)
    (mode : Option Nat) (hfail : ∀ f, path = some f → os.canOpen f flags = false) :
    sys_open os p path flags mode
      = (-1, { fds := p.fds, trace := p.trace ++ [Sys.sopen path flags mode (-1)] }) := by
  cases path with
  | none => rfl
  | some f => simp [sys_open, hfail f rfl]

theorem bindStream_fail (os : Os) (p : Proc) (path : Option Token) (flags : Nat)
    (mode : Option Nat) (target : Int)
    (hfail : ∀ f, path = some f → os.canOpen f flags = false) :
    bindStream os p path flags mode target
      = { fds := p.fds,
          trace := p.trace ++ [Sys.sopen path flags mode (-1), Sys.dup2 (-1) target (-1),
            Sys.close (-1) (-1)] } := by
  unfold bindStream
  rw [sys_open_fail os p path flags mode hfail]
  simp [sys_dup2, sys_close]

theorem bindStream_trace (os : Os) (p : Proc) (path : Option Token) (flags : Nat)
    (mode : Option Nat) (target : Int) :
    ∃ fd r1 r2, (bindStream os p path flags mode target).trace
      = p.trace ++ [Sys.sopen path flags mode fd, Sys.dup2 fd target r1, Sys.close fd r2] := by
  refine ⟨(sys_open os p path flags mode).1, ?_⟩
  have hopen : (sys_open os p path flags mode).2.trace
      = p.trace ++ [Sys.sopen path flags mode (sys_open os p path flags mode).1] := by
    cases path with
    | none => rfl
    | some f =>
      by_cases h : os.canOpen f flags = true
      · simp [sys_open, h]
      · simp [sys_open, h]
  unfold bindStream sys_close sys_dup2
  split_ifs <;> simp [hopen]

theorem bindStream_ok (os : Os) (p : Proc) (f : Token) (flags : Nat) (mode : Option Nat)
    (t : Nat) (hopen : os.canOpen f flags = true) (hstream : (getFd p.fds t).isSome = true) :
    (∀ k, getFd (bindStream os p (some f) flags mode (Int.ofNat t)).fds k
        = if k = t then some { path := f, flags := flags } else getFd p.fds k)
      ∧ (bindStream os p (some f) flags mode (Int.ofNat t)).trace
        = p.trace ++ [Sys.sopen (some f) flags mode (Int.ofNat (lowestFree p.fds)),
            Sys.dup2 (Int.ofNat (lowestFree p.fds)) (Int.ofNat t) (Int.ofNat t),
            Sys.close (Int.ofNat (lowestFree p.fds)) 0] := by
  have hfree := getFd_lowestFree p.fds
  have hne : lowestFree p.fds ≠ t := by
    intro h
    rw [h] at hfree
    rw [hfree] at hstream
    cases hstream
  have h1 : sys_open os p (some f) flags mode
      = (Int.ofNat (lowestFree p.fds),
        { fds := setFd p.fds (lowestFree p.fds) (some { path := f, flags := flags }),
          trace := p.trace ++ [Sys.sopen (some f) flags mode (Int.ofNat (lowestFree p.fds))] }) := by
    simp [sys_open, hopen]
  unfold bindStream
  rw [h1]
  have hnn : ∀ n : Nat, (0 : Int) ≤ Int.ofNat n := fun n => Int.ofNat_nonneg n
  have hto : ∀ n : Nat, (Int.ofNat n).toNat = n := fun _ => rfl
  have hdup : sys_dup2
      { fds := setFd p.fds (lowestFree p.fds) (some { path := f, flags := flags }),
        trace := p.trace ++ [Sys.sopen (some f) flags mode (Int.ofNat (lowestFree p.fds))] }
      (Int.ofNat (lowestFree p.fds)) (Int.ofNat t)
      = { fds := setFd (setFd p.fds (lowestFree p.fds) (some { path := f, flags := flags })) t
            (some { path := f, flags := flags }),
          trace := p.trace ++ [Sys.sopen (some f) flags mode (Int.ofNat (lowestFree p.fds)),
            Sys.dup2 (Int.ofNat (lowestFree p.fds)) (Int.ofNat t) (Int.ofNat t)] } := by
    unfold sys_dup2
    simp only [hto, getFd_setFd, if_true, Option.isSome_some, hnn, true_and]
    simp
  rw [hdup]
  unfold sys_close
  simp only [hto, getFd_setFd, if_neg hne, if_true, Option.isSome_some, hnn, true_and]
  refine ⟨?_, by simp⟩
  intro k
  by_cases hk : k = lowestFree p.fds
  · subst hk
    simp [hne, hfree]
  · by_cases hkt : k = t
    · subst hkt
      simp [hk]
    · simp [hk, hkt]

theorem redirEffects_all_fail (os : Os) (hfail : ∀ f flags, os.canOpen f flags = false)
    (ts : List Token) : ∀ p : Proc, (redirEffects os p ts).fds = p.fds := by
  induction ts with
  | nil => intro p; rfl
  | cons a ts ih =>
    intro p
    simp only [redirEffects]
    split_ifs
    · rw [ih, bindStream_fail os p _ _ _ _ (fun f _ => hfail f _)]
    · rw [ih, bindStream_fail os p _ _ _ _ (fun f _ => hfail f _)]
    · exact ih p

/-! ## The residual argv of `redirect` -/

theorem any_isRedirOp_false (ts : List Token) (h : ts.any isRedirOp = false) :
    ∀ t ∈ ts, isRedirOp t = false := by
  intro t ht
  cases hb : isRedirOp t with
  | false => rfl
  | true =>
    have : ts.any isRedirOp = true := List.any_eq_true.mpr ⟨t, ht, hb⟩
    rw [h] at this
    cases this

theorem split_at_first_operator (ts : List Token) (h : ts.any isRedirOp = true) :
    ∃ op back, isRedirOp op = true
      ∧ ts = ts.takeWhile (fun t => !isRedirOp t) ++ op :: back
      ∧ ts.dropWhile (fun t => !isRedirOp t) = op :: back := by
  induction ts with
  | nil => cases h
  | cons a ts ih =>
    cases ha : isRedirOp a with
    | true => exact ⟨a, ts, ha, by simp [List.takeWhile_cons, ha], by simp [List.dropWhile_cons, ha]⟩
    | false =>
      have h2 : ts.any isRedirOp = true := by simpa [List.any_cons, ha] using h
      obtain ⟨op, back, hop, hsplit, hdrop⟩ := ih h2
      refine ⟨op, back, hop, ?_, ?_⟩
      · simp only [List.takeWhile_cons, ha, Bool.not_false, if_true, List.cons_append]
        rw [← hsplit]
      · simp only [List.dropWhile_cons, ha, Bool.not_false, if_true]
        exact hdrop

theorem takeWhile_plain (ts : List Token) :
    ∀ t ∈ ts.takeWhile (fun t => !isRedirOp t), isRedirOp t = false := by
  intro t ht
  have := List.mem_takeWhile_imp ht
  simpa using this

theorem redirect_argv_of_operator (os : Os) (p : Proc) (ts : List Token)
    (hop : ts.any isRedirOp = true) (hlen : ts.length ≤ 64) :
    ∃ new_argv, redirect os p (vec ts) = .ok (new_argv, redirEffects os p ts)
      ∧ readVec new_argv = .ok (ts.takeWhile (fun t => !isRedirOp t))
      ∧ load new_argv 0 = .ok (ts.takeWhile (fun t => !isRedirOp t)).head? := by
  obtain ⟨op, back, hopb, hsplit, _⟩ := split_at_first_operator ts hop
  have hlen2 : (ts.takeWhile (fun t => !isRedirOp t) ++ op :: back).length ≤ 64 := by
    rw [← hsplit]; exact hlen
  obtain ⟨tail, htail⟩ := fillBuf_first_operator (ts.takeWhile (fun t => !isRedirOp t)) op back
    (takeWhile_plain ts) hopb hlen2
  rw [← hsplit] at htail
  refine ⟨_, redirect_eq os p ts hlen, ?_, ?_⟩
  · rw [htail, readVec_vec_append]
  · rw [htail]
    cases ts.takeWhile (fun t => !isRedirOp t) with
    | nil => rfl
    | cons a l => rfl

theorem residualFrom_plain (front rest : List Token)
    (hfront : ∀ t ∈ front, isRedirOp t = false) :
    residualFrom false (front ++ rest) = front ++ residualFrom false rest := by
  induction front with
  | nil => rfl
  | cons a front ih =>
    have ha : isRedirOp a = false := hfront a (List.mem_cons_self a front)
    simp only [List.cons_append, residualFrom, ha, Bool.false_eq_true, if_false, List.append_eq]
    rw [ih (fun t ht => hfront t (List.mem_cons_of_mem a ht))]

/-! ## C3: tokens after a redirection -/

/-- C3 (counterexample). On `["cat", ">", "out.txt", "-n"]`, where the operator has its
operand, the tokens that are neither operator nor operand are `["cat", "-n"]`, but the residual
argv returned by `redirect` is `["cat"]`: the token after the redirection is dropped. -/
theorem redirect_drops_tokens_after_redirection :
    operandsPresent ["cat".toList, ">".toList, "out.txt".toList, "-n".toList] = true
      ∧ residualTokens ["cat".toList, ">".toList, "out.txt".toList, "-n".toList]
          = ["cat".toList, "-n".toList]
      ∧ redirect_argv okOs stdProc
          (vec ["cat".toList, ">".toList, "out.txt".toList, "-n".toList])
          = .ok ["cat".toList] := by
  decide

/-- C3 (amended). For every stage argv of at most 63 tokens that contains a redirection
operator, in which each operator is immediately followed by an operand and no token other than
operators and their operands comes after the first operator, the residual argv returned by
`redirect` consists of exactly the tokens that are neither a redirection operator nor the
operand immediately following one, in their original order. -/
theorem redirect_residual_before_redirection (os : Os) (p : Proc) (ts : List Token)
    (hlen : ts.length ≤ 63) (hop : ts.any isRedirOp = true)
    (_hoperands : operandsPresent ts = true)
    (htrail : residualTokens (ts.dropWhile (fun t => !isRedirOp t)) = []) :
    redirect_argv os p (vec ts) = .ok (residualTokens ts) := by
  obtain ⟨new_argv, hred, hread, _⟩ := redirect_argv_of_operator os p ts hop (by omega)
  obtain ⟨op, back, _, hsplit, hdrop⟩ := split_at_first_operator ts hop
  have hres : residualTokens ts = ts.takeWhile (fun t => !isRedirOp t) := by
    have h := residualFrom_plain (ts.takeWhile (fun t => !isRedirOp t)) (op :: back)
      (takeWhile_plain ts)
    rw [← hsplit] at h
    unfold residualTokens at htrail ⊢
    rw [hdrop] at htrail
    rw [h, htrail, List.append_nil]
  unfold redirect_argv
  rw [hred]
  simp only [hread, hres]

/-- The spec example: `["cat", ">", "out.txt"]` yields the residual argv `["cat"]`. -/
theorem redirect_residual_before_redirection_witness :
    redirect_argv okOs stdProc (vec ["cat".toList, ">".toList, "out.txt".toList])
      = .ok (residualTokens ["cat".toList, ">".toList, "out.txt".toList])
      ∧ residualTokens ["cat".toList, ">".toList, "out.txt".toList] = ["cat".toList] :=
  ⟨redirect_residual_before_redirection okOs stdProc
      ["cat".toList, ">".toList, "out.txt".toList] (by decide) (by decide) (by decide)
      (by decide),
    by decide⟩

/-! ## C4: a stage without redirection -/

/-- C4 (code bug). For a stage argv of at most 63 tokens without `"<"` and `">"`, `redirect`
copies the tokens in order and issues no system call (the process is unchanged), but it never
writes the end marker: the slot after the last token is left as `malloc` gave it, so the
argument list read by `execvp` is not terminated and reading it is a fault. -/
theorem redirect_plain_stage_unterminated (os : Os) (p : Proc) (ts : List Token)
    (hplain : ts.any isRedirOp = false) (hlen : ts.length ≤ 63) :
    redirect os p (vec ts) = .ok (ts.map Slot.ptr ++ malloc Token (64 - ts.length), p)
      ∧ load (ts.map Slot.ptr ++ malloc Token (64 - ts.length)) ts.length = .error .uninitRead
      ∧ redirect_argv os p (vec ts) = .error .uninitRead := by
  have hts := any_isRedirOp_false ts hplain
  have hred : redirect os p (vec ts)
      = .ok (ts.map Slot.ptr ++ malloc Token (64 - ts.length), p) := by
    rw [redirect_eq os p ts (by omega), fillBuf_no_operator ts hts (by omega),
      redirEffects_no_operator os p ts hts]
  obtain ⟨k, hk⟩ : ∃ k, 64 - ts.length = k + 1 := ⟨64 - ts.length - 1, by omega⟩
  refine ⟨hred, ?_, ?_⟩
  · unfold load malloc
    rw [hk]
    have : (List.map Slot.ptr ts ++ List.replicate (k + 1) (Slot.uninit : Slot Token)).get?
        ts.length = some Slot.uninit := by
      have hl : (List.map (Slot.ptr : Token → Slot Token) ts).length = ts.length := by simp
      rw [List.get?_eq_getElem?, List.getElem?_append_right (by simp)]
      simp [List.replicate_succ]
    rw [this]
  · unfold redirect_argv
    rw [hred]
    simp only [malloc]
    rw [hk, readVec_ptrs_uninit]

/-- The ordinary case `["ls", "-la"]`: slot 2 of the returned array was never written. -/
theorem redirect_plain_stage_unterminated_witness :
    redirect okOs stdProc (vec ["ls".toList, "-la".toList])
        = .ok ([Slot.ptr "ls".toList, Slot.ptr "-la".toList] ++ malloc Token 62, stdProc)
      ∧ load ([Slot.ptr "ls".toList, Slot.ptr "-la".toList] ++ malloc Token 62) 2
          = .error .uninitRead
      ∧ redirect_argv okOs stdProc (vec ["ls".toList, "-la".toList]) = .error .uninitRead :=
  redirect_plain_stage_unterminated okOs stdProc ["ls".toList, "-la".toList]
    (by decide) (by decide)

/-! ## C5: what one redirection does -/

theorem redirEffects_single (os : Os) (p : Proc) (front : List Token) (op path : Token)
    (back : List Token) (hfront : front.any isRedirOp = false) (hpath : isRedirOp path = false)
    (hback : back.any isRedirOp = false) :
    redirEffects os p (front ++ op :: path :: back)
      = if op = ltTok then bindStream os p (some path) O_RDONLY none 0
        else if op = gtTok then bindStream os p (some path) outFlags (some outMode) 1
        else p := by
  have hrest : ∀ t ∈ path :: back, isRedirOp t = false := by
    intro t ht
    rcases List.mem_cons.mp ht with rfl | ht
    · exact hpath
    · exact any_isRedirOp_false back hback t ht
  rw [redirEffects_plain os p front _ (any_isRedirOp_false front hfront)]
  have step : redirEffects os p (op :: path :: back)
      = if op = ltTok then
          redirEffects os (bindStream os p (some path) O_RDONLY none 0) (path :: back)
        else if op = gtTok then
          redirEffects os (bindStream os p (some path) outFlags (some outMode) 1) (path :: back)
        else redirEffects os p (path :: back) := rfl
  rw [step]
  simp only [redirEffects_no_operator os _ _ hrest]

/-- C5. For every stage argv (of at most 63 tokens) with exactly one redirection operator
followed by a path.  If the operator is `">"`, `redirect` issues exactly the calls `open` of
that path with `O_WRONLY | O_TRUNC | O_CREAT` and mode 0660, `dup2` of the returned descriptor
onto descriptor 1, and `close` of the returned descriptor; when the open succeeds in a process
whose standard output is open, descriptor 1 is afterwards bound to the opened file, the
temporary descriptor is closed again and every other descriptor, standard input included, is
as before.  If the operator is `"<"`, the same holds with `open` read-only and descriptor 0,
standard output being unchanged. -/
theorem redirect_single_operator (os : Os) (p : Proc) (front : List Token) (path : Token)
    (back : List Token) (hfront : front.any isRedirOp = false) (hpath : isRedirOp path = false)
    (hback : back.any isRedirOp = false) (hlen : front.length + 2 + back.length ≤ 63) :
    (∃ new_argv q, redirect os p (vec (front ++ gtTok :: path :: back)) = .ok (new_argv, q)
      ∧ (∃ fd r1 r2, q.trace = p.trace ++
          [Sys.sopen (some path) (O_WRONLY ||| O_TRUNC ||| O_CREAT) (some 0o660) fd,
            Sys.dup2 fd 1 r1, Sys.close fd r2])
      ∧ (os.canOpen path (O_WRONLY ||| O_TRUNC ||| O_CREAT) = true →
          (getFd p.fds 1).isSome = true →
          getFd q.fds 1 = some { path := path, flags := O_WRONLY ||| O_TRUNC ||| O_CREAT }
          ∧ getFd q.fds (lowestFree p.fds) = none
          ∧ ∀ k, k ≠ 1 → getFd q.fds k = getFd p.fds k))
    ∧ (∃ new_argv q, redirect os p (vec (front ++ ltTok :: path :: back)) = .ok (new_argv, q)
      ∧ (∃ fd r1 r2, q.trace = p.trace ++
          [Sys.sopen (some path) O_RDONLY none fd, Sys.dup2 fd 0 r1, Sys.close fd r2])
      ∧ (os.canOpen path O_RDONLY = true →
          (getFd p.fds 0).isSome = true →
          getFd q.fds 0 = some { path := path, flags := O_RDONLY }
          ∧ getFd q.fds (lowestFree p.fds) = none
          ∧ ∀ k, k ≠ 0 → getFd q.fds k = getFd p.fds k)) := by
  have hfree := getFd_lowestFree p.fds
  constructor
  · have hl : (front ++ gtTok :: path :: back).length ≤ 64 := by simp; omega
    have he := redirEffects_single os p front gtTok path back hfront hpath hback
    have hne : ¬ gtTok = ltTok := by decide
    rw [if_neg hne, if_pos rfl] at he
    refine ⟨_, _, redirect_eq os p _ hl, ?_, ?_⟩
    · rw [he]
      exact bindStream_trace os p (some path) outFlags (some outMode) 1
    · intro hopen hstream
      rw [he]
      have h := (bindStream_ok os p path outFlags (some outMode) 1 hopen hstream).1
      refine ⟨?_, ?_, ?_⟩
      · have := h 1
        simpa using this
      · have := h (lowestFree p.fds)
        by_cases hk : lowestFree p.fds = 1
        · rw [hk] at hfree
          rw [hfree] at hstream
          cases hstream
        · rw [if_neg hk, hfree] at this
          exact this
      · intro k hk
        have := h k
        rw [if_neg hk] at this
        exact this
  · have hl : (front ++ ltTok :: path :: back).length ≤ 64 := by simp; omega
    have he := redirEffects_single os p front ltTok path back hfront hpath hback
    rw [if_pos rfl] at he
    refine ⟨_, _, redirect_eq os p _ hl, ?_, ?_⟩
    · rw [he]
      exact bindStream_trace os p (some path) O_RDONLY none 0
    · intro hopen hstream
      rw [he]
      have h := (bindStream_ok os p path O_RDONLY none 0 hopen hstream).1
      refine ⟨?_, ?_, ?_⟩
      · have := h 0
        simpa using this
      · have := h (lowestFree p.fds)
        by_cases hk : lowestFree p.fds = 0
        · rw [hk] at hfree
          rw [hfree] at hstream
          cases hstream
        · rw [if_neg hk, hfree] at this
          exact this
      · intro k hk
        have := h k
        rw [if_neg hk] at this
        exact this

/-- The stage `["cat", ">", "out.txt"]` and the stage `["cat", "<", "out.txt"]` in a process
with the standard streams on the terminal. -/
theorem redirect_single_operator_witness :
    (∃ new_argv q,
      redirect okOs stdProc (vec (["cat".toList] ++ gtTok :: "out.txt".toList :: []))
        = .ok (new_argv, q)
      ∧ (∃ fd r1 r2, q.trace = stdProc.trace ++
          [Sys.sopen (some "out.txt".toList) (O_WRONLY ||| O_TRUNC ||| O_CREAT) (some 0o660) fd,
            Sys.dup2 fd 1 r1, Sys.close fd r2])
      ∧ (okOs.canOpen "out.txt".toList (O_WRONLY ||| O_TRUNC ||| O_CREAT) = true →
          (getFd stdProc.fds 1).isSome = true →
          getFd q.fds 1
            = some { path := "out.txt".toList, flags := O_WRONLY ||| O_TRUNC ||| O_CREAT }
          ∧ getFd q.fds (lowestFree stdProc.fds) = none
          ∧ ∀ k, k ≠ 1 → getFd q.fds k = getFd stdProc.fds k))
    ∧ (∃ new_argv q,
      redirect okOs stdProc (vec (["cat".toList] ++ ltTok :: "out.txt".toList :: []))
        = .ok (new_argv, q)
      ∧ (∃ fd r1 r2, q.trace = stdProc.trace ++
          [Sys.sopen (some "out.txt".toList) O_RDONLY none fd, Sys.dup2 fd 0 r1,
            Sys.close fd r2])
      ∧ (okOs.canOpen "out.txt".toList O_RDONLY = true →
          (getFd stdProc.fds 0).isSome = true →
          getFd q.fds 0 = some { path := "out.txt".toList, flags := O_RDONLY }
          ∧ getFd q.fds (lowestFree stdProc.fds) = none
          ∧ ∀ k, k ≠ 0 → getFd q.fds k = getFd stdProc.fds k)) :=
  redirect_single_operator okOs stdProc ["cat".toList] "out.txt".toList []
    (by decide) (by decide) (by decide) (by decide)

/-! ## C6: a redirection operator without operand -/

theorem redirEffects_trailing_operator (os : Os) (op : Token) (hop : isRedirOp op = true)
    (front : List Token) :
    ∀ p : Proc, ∃ q : Proc, redirEffects os p (front ++ [op])
      = if op = ltTok then bindStream os q none O_RDONLY none 0
        else bindStream os q none outFlags (some outMode) 1 := by
  induction front with
  | nil =>
    intro p
    refine ⟨p, ?_⟩
    rcases (isRedirOp_true_iff op).mp hop with rfl | rfl
    · rfl
    · rfl
  | cons a front ih =>
    intro p
    have step : redirEffects os p (a :: (front ++ [op]))
        = if a = ltTok then
            redirEffects os (bindStream os p (front ++ [op]).head? O_RDONLY none 0)
              (front ++ [op])
          else if a = gtTok then
            redirEffects os (bindStream os p (front ++ [op]).head? outFlags (some outMode) 1)
              (front ++ [op])
          else redirEffects os p (front ++ [op]) := rfl
    rw [List.cons_append, step]
    by_cases h1 : a = ltTok
    · rw [if_pos h1]
      exact ih _
    · rw [if_neg h1]
      by_cases h2 : a = gtTok
      · rw [if_pos h2]
        exact ih _
      · rw [if_neg h2]
        exact ih _

/-- C6 (counterexample). On `["cat", ">"]` the function `redirect` does not fail: it calls
`open` with the end marker as path, `dup2` and `close` with the resulting -1, and returns the
same array as for the well-formed `["cat", ">", "out.txt"]`, from which `run` executes `cat`
with the standard output it inherited. -/
theorem redirect_missing_operand_not_reported :
    redirect okOs stdProc (vec ["cat".toList, ">".toList])
        = .ok (vec ["cat".toList] ++ malloc Token 62,
            { fds := stdProc.fds,
              trace := [Sys.sopen none outFlags (some outMode) (-1), Sys.dup2 (-1) 1 (-1),
                Sys.close (-1) (-1)] })
      ∧ (redirect okOs stdProc (vec ["cat".toList, ">".toList, "out.txt".toList])).map Prod.fst
          = .ok (vec ["cat".toList] ++ malloc Token 62)
      ∧ run_child okOs stdProc.fds (vec ["cat".toList, ">".toList])
          = .ok { trace := [Sys.sopen none outFlags (some outMode) (-1), Sys.dup2 (-1) 1 (-1),
                    Sys.close (-1) (-1)],
                  fds := stdProc.fds, file := "cat".toList,
                  argv := vec ["cat".toList] ++ malloc Token 62,
                  replaced := true, printed := [], exit := some 0 } := by
  decide

/-- C6 (amended). For every stage argv of at most 63 tokens whose last token is `"<"` or `">"`,
`redirect` reports no error: it returns normally, without ever reading an element beyond the end
marker (such a read is a fault in this model), the residual argv made of the tokens before the
first redirection operator; its last three system calls are `open` with the end marker (an
absent path) in place of the operand, and `dup2` and `close` on the -1 that `open` returned. -/
theorem redirect_trailing_operator (os : Os) (p : Proc) (front : List Token) (op : Token)
    (hop : isRedirOp op = true) (hlen : (front ++ [op]).length ≤ 63) :
    ∃ new_argv q, redirect os p (vec (front ++ [op])) = .ok (new_argv, q)
      ∧ readVec new_argv = .ok ((front ++ [op]).takeWhile (fun t => !isRedirOp t))
      ∧ ∃ before, q.trace = before ++
          (if op = ltTok then
            [Sys.sopen none O_RDONLY none (-1), Sys.dup2 (-1) 0 (-1), Sys.close (-1) (-1)]
          else
            [Sys.sopen none outFlags (some outMode) (-1), Sys.dup2 (-1) 1 (-1),
              Sys.close (-1) (-1)]) := by
  have hany : (front ++ [op]).any isRedirOp = true := by
    simp [List.any_append, hop]
  obtain ⟨new_argv, hred, hread, _⟩ :=
    redirect_argv_of_operator os p (front ++ [op]) hany (by omega)
  refine ⟨new_argv, _, hred, hread, ?_⟩
  obtain ⟨q, hq⟩ := redirEffects_trailing_operator os op hop front p
  rw [hq]
  refine ⟨q.trace, ?_⟩
  by_cases h : op = ltTok
  · rw [if_pos h, if_pos h, bindStream_fail os q none _ _ _ (fun f hf => by cases hf)]
  · rw [if_neg h, if_neg h, bindStream_fail os q none _ _ _ (fun f hf => by cases hf)]

/-- The spec example of a missing operand, `["cat", ">"]`. -/
theorem redirect_trailing_operator_witness :
    ∃ new_argv q, redirect okOs stdProc (vec (["cat".toList] ++ [">".toList]))
        = .ok (new_argv, q)
      ∧ readVec new_argv
          = .ok ((["cat".toList] ++ [">".toList]).takeWhile (fun t => !isRedirOp t))
      ∧ ∃ before, q.trace = before ++
          (if ">".toList = ltTok then
            [Sys.sopen none O_RDONLY none (-1), Sys.dup2 (-1) 0 (-1), Sys.close (-1) (-1)]
          else
            [Sys.sopen none outFlags (some outMode) (-1), Sys.dup2 (-1) 1 (-1),
              Sys.close (-1) (-1)]) :=
  redirect_trailing_operator okOs stdProc ["cat".toList] ">".toList (by decide) (by decide)

/-! ## C7: a redirection whose `open` fails -/

/-- C7 (counterexample). With no file openable, `run` on `["cat", "<", "missing"]` still
executes `cat`: the child calls `open`, which returns -1, then `dup2` and `close` on -1, keeps
the descriptor table it inherited and replaces its image by `cat` with argv `["cat"]`; the
parent gets the usual status 1. -/
theorem run_executes_after_failed_open :
    run denyOs stdShell (vec ["cat".toList, "<".toList, "missing".toList])
      = .ok (.returned 1,
          { fds := stdShell.fds,
            events :=
              [Event.spawn 100
                { trace := [Sys.sopen (some "missing".toList) O_RDONLY none (-1),
                    Sys.dup2 (-1) 0 (-1), Sys.close (-1) (-1)],
                  fds := stdShell.fds, file := "cat".toList,
                  argv := vec ["cat".toList] ++ malloc Token 62,
                  replaced := true, printed := [], exit := some 0 },
                Event.reaped 100 0],
            user := () }) := by
  decide

theorem redirEffects_failed (os : Os) (ts : List Token) :
    (∀ f flags mode target, (some f, flags, mode, target) ∈ redirCalls ts →
        os.canOpen f flags = false) →
    ∀ p : Proc, redirEffects os p ts
      = { fds := p.fds, trace := p.trace ++ failedCalls (redirCalls ts) } := by
  induction ts with
  | nil =>
    intro _ p
    simp [redirEffects, redirCalls, failedCalls]
  | cons a ts ih =>
    intro hfail p
    by_cases h1 : a = ltTok
    · have hcalls : redirCalls (a :: ts) = (ts.head?, O_RDONLY, none, 0) :: redirCalls ts := by
        simp [redirCalls, h1]
      have hstep : redirEffects os p (a :: ts)
          = redirEffects os (bindStream os p ts.head? O_RDONLY none 0) ts := by
        simp [redirEffects, h1]
      rw [hcalls] at hfail
      rw [hstep, hcalls,
        ih (fun f flags mode target h => hfail f flags mode target (List.mem_cons_of_mem _ h)),
        bindStream_fail os p ts.head? O_RDONLY none 0
          (fun f hf => hfail f O_RDONLY none 0 (by rw [hf]; exact List.mem_cons_self _ _))]
      simp [failedCalls]
    · by_cases h2 : a = gtTok
      · have hne : ¬ gtTok = ltTok := by decide
        have hcalls : redirCalls (a :: ts)
            = (ts.head?, outFlags, some outMode, 1) :: redirCalls ts := by
          simp [redirCalls, h2, hne]
        have hstep : redirEffects os p (a :: ts)
            = redirEffects os (bindStream os p ts.head? outFlags (some outMode) 1) ts := by
          simp [redirEffects, h2, hne]
        rw [hcalls] at hfail
        rw [hstep, hcalls,
          ih (fun f flags mode target h => hfail f flags mode target (List.mem_cons_of_mem _ h)),
          bindStream_fail os p ts.head? outFlags (some outMode) 1
            (fun f hf => hfail f outFlags (some outMode) 1
              (by rw [hf]; exact List.mem_cons_self _ _))]
        simp [failedCalls]
      · have hcalls : redirCalls (a :: ts) = redirCalls ts := by
          simp [redirCalls, h1, h2]
        have hstep : redirEffects os p (a :: ts) = redirEffects os p ts := by
          simp [redirEffects, h1, h2]
        rw [hcalls] at hfail
        rw [hstep, hcalls, ih hfail]

/-- C7 (amended). For every stage of at most 63 tokens that starts with a program name and
contains a redirection operator, when every `open` that the stage attempts fails, the failure is
not reported and the stage is not aborted: for each operator the child calls `open`, which
returns -1, and then `dup2` and `close` on that -1, and it issues no other call; it keeps the
descriptor table it inherited (the stream stays on its default) and calls `execvp` on the
program name with the tokens before the first operator; `run` ends as for any other child,
returning 1 once the child has terminated. -/
theorem run_ignores_failed_open {σ : Type} (os : Os) (sh : Shell σ) (name : Token)
    (rest : List Token) (pid : Nat)
    (hname : isRedirOp name = false) (hop : rest.any isRedirOp = true)
    (hlen : (name :: rest).length ≤ 63)
    (hfail : ∀ f flags mode target,
      (some f, flags, mode, target) ∈ redirCalls (name :: rest) → os.canOpen f flags = false)
    (hfork : os.forkPid = some pid) :
    ∃ child, run_child os sh.fds (vec (name :: rest)) = .ok child
      ∧ child.file = name
      ∧ readVec child.argv = .ok (name :: rest.takeWhile (fun t => !isRedirOp t))
      ∧ child.fds = sh.fds
      ∧ child.trace = failedCalls (redirCalls (name :: rest))
      ∧ child.replaced = os.canExec name
      ∧ run os sh (vec (name :: rest))
          = .ok (match child.exit with
              | none =>
                (.blocked,
                  { fds := sh.fds, events := sh.events ++ [Event.spawn pid child],
                    user := sh.user })
              | some status =>
                (.returned 1,
                  { fds := sh.fds,
                    events := sh.events ++ [Event.spawn pid child, Event.reaped pid status],
                    user := sh.user })) := by
  have hany : (name :: rest).any isRedirOp = true := by
    simp [List.any_cons, hop]
  obtain ⟨new_argv, hred, hread, hload⟩ :=
    redirect_argv_of_operator os { fds := sh.fds, trace := [] } (name :: rest) hany (by omega)
  have htake : (name :: rest).takeWhile (fun t => !isRedirOp t)
      = name :: rest.takeWhile (fun t => !isRedirOp t) := by
    simp [List.takeWhile_cons, hname]
  rw [htake] at hread hload
  have heff := redirEffects_failed os (name :: rest) hfail { fds := sh.fds, trace := [] }
  have hfds : (redirEffects os { fds := sh.fds, trace := [] } (name :: rest)).fds = sh.fds := by
    rw [heff]
  have htrace : (redirEffects os { fds := sh.fds, trace := [] } (name :: rest)).trace
      = failedCalls (redirCalls (name :: rest)) := by
    rw [heff]
    simp
  have hchild : ∃ child, run_child os sh.fds (vec (name :: rest)) = .ok child
      ∧ child.file = name
      ∧ readVec child.argv = .ok (name :: rest.takeWhile (fun t => !isRedirOp t))
      ∧ child.fds = sh.fds
      ∧ child.trace = failedCalls (redirCalls (name :: rest))
      ∧ child.replaced = os.canExec name := by
    unfold run_child
    rw [hred]
    unfold exec_call
    simp only [hload, hread, List.head?_cons]
    by_cases hx : os.canExec name = true
    · rw [if_pos hx]
      exact ⟨_, rfl, rfl, hread, hfds, htrace, hx.symm⟩
    · rw [if_neg hx]
      refine ⟨_, rfl, rfl, hread, hfds, htrace, ?_⟩
      simp at hx
      exact hx.symm
  obtain ⟨child, hrun, h1, h2, h3, h4, h5⟩ := hchild
  refine ⟨child, hrun, h1, h2, h3, h4, h5, ?_⟩
  unfold run
  rw [hfork]
  simp only [hrun]
  cases child.exit <;> rfl

/-- The stage `["cat", "<", "missing"]` on a system where only the file `missing` cannot be
opened. -/
theorem run_ignores_failed_open_witness :
    ∃ child,
      run_child missingOs stdShell.fds (vec ("cat".toList :: ["<".toList, "missing".toList]))
        = .ok child
      ∧ child.file = "cat".toList
      ∧ readVec child.argv
          = .ok ("cat".toList :: ["<".toList, "missing".toList].takeWhile (fun t => !isRedirOp t))
      ∧ child.fds = stdShell.fds
      ∧ child.trace
          = failedCalls (redirCalls ("cat".toList :: ["<".toList, "missing".toList]))
      ∧ child.replaced = missingOs.canExec "cat".toList
      ∧ run missingOs stdShell (vec ("cat".toList :: ["<".toList, "missing".toList]))
          = .ok (match child.exit with
              | none =>
                (.blocked,
                  { fds := stdShell.fds, events := stdShell.events ++ [Event.spawn 100 child],
                    user := stdShell.user })
              | some status =>
                (.returned 1,
                  { fds := stdShell.fds,
                    events := stdShell.events ++ [Event.spawn 100 child, Event.reaped 100 status],
                    user := stdShell.user })) :=
  run_ignores_failed_open missingOs stdShell "cat".toList ["<".toList, "missing".toList] 100
    (by decide) (by decide) (by decide)
    (by
      intro f flags mode target h
      have e : redirCalls ("cat".toList :: ["<".toList, "missing".toList])
          = [(some "missing".toList, O_RDONLY, none, 0)] := by decide
      rw [e] at h
      simp only [List.mem_singleton, Prod.mk.injEq, Option.some.injEq] at h
      obtain ⟨rfl, rfl, _, _⟩ := h
      rfl)
    rfl

/-! ## C8, C9: the dispatcher -/

/-- C8. For every argv whose first element is absent, whatever the built-in table and the
system, `execute` returns the status 1 and leaves the interpreter as it was: no handler is
invoked and no process is spawned (no event is recorded). -/
theorem execute_empty_stage {σ : Type} (command_labels : List Token)
    (command_functions : List (Handler σ)) (os : Os) (sh : Shell σ) (rest : Buf Token) :
    execute command_labels command_functions os sh (Slot.null :: rest)
      = .ok (.returned 1, sh) := by
  rfl

theorem find_label_first (name : Token) (labels : List Token) :
    ∀ (i k : Nat), labels.get? i = some name → (∀ j, j < i → labels.get? j ≠ some name) →
      find_label name labels k = some (k + i) := by
  induction labels with
  | nil => intro i k h _; simp at h
  | cons l labels ih =>
    intro i k h hfirst
    cases i with
    | zero =>
      have hl : l = name := by simpa using h
      simp [find_label, hl]
    | succ i =>
      have hne : ¬ name = l := by
        intro he
        exact hfirst 0 (by omega) (by simp [he])
      have h2 : labels.get? i = some name := by simpa using h
      have h3 : ∀ j, j < i → labels.get? j ≠ some name := by
        intro j hj
        have := hfirst (j + 1) (by omega)
        simpa using this
      simp only [find_label, if_neg hne]
      rw [ih i (k + 1) h2 h3]
      congr 1
      omega

theorem find_label_none (name : Token) (labels : List Token)
    (hno : ∀ l ∈ labels, l ≠ name) : ∀ k, find_label name labels k = none := by
  induction labels with
  | nil => intro k; rfl
  | cons l labels ih =>
    intro k
    have hne : ¬ name = l := fun he => hno l (List.mem_cons_self l labels) he.symm
    simp only [find_label, if_neg hne]
    exact ih (fun x hx => hno x (List.mem_cons_of_mem l hx)) (k + 1)

/-- C9. For every argv with a first element `name` and every built-in table whose label and
handler arrays are parallel: if `name` equals, character for character, the label at index `i`
and no label before it, `execute` returns exactly the status of the handler at index `i`
applied to the full argv, and the only thing the interpreter does is that handler call (no
process is spawned); if `name` equals no label, `execute` is `run` on the argv. -/
theorem execute_dispatch {σ : Type} (command_labels : List Token)
    (command_functions : List (Handler σ)) (os : Os) (sh : Shell σ) (name : Token)
    (rest : Buf Token) (hparallel : command_labels.length = command_functions.length) :
    (∀ i, command_labels.get? i = some name →
        (∀ j, j < i → command_labels.get? j ≠ some name) →
        ∃ handler, command_functions.get? i = some handler
          ∧ execute command_labels command_functions os sh (Slot.ptr name :: rest)
            = .ok (.returned (handler (Slot.ptr name :: rest) sh.user).1,
                { fds := sh.fds,
                  events := sh.events ++ [Event.builtin i (Slot.ptr name :: rest)],
                  user := (handler (Slot.ptr name :: rest) sh.user).2 }))
      ∧ ((∀ l ∈ command_labels, l ≠ name) →
          execute command_labels command_functions os sh (Slot.ptr name :: rest)
            = run os sh (Slot.ptr name :: rest)) := by
  have hload : load (Slot.ptr name :: rest) 0 = .ok (some name) := rfl
  constructor
  · intro i hi hfirst
    have hlt : i < command_functions.length := by
      rw [← hparallel]
      by_contra hge
      have : command_labels.get? i = none := by
        rw [List.get?_eq_getElem?]
        exact List.getElem?_eq_none (by omega)
      rw [this] at hi
      cases hi
    have hget : command_functions.get? i = some (command_functions.get ⟨i, hlt⟩) := by
      rw [List.get?_eq_getElem?, List.getElem?_eq_getElem hlt]
      rfl
    refine ⟨command_functions.get ⟨i, hlt⟩, hget, ?_⟩
    have hfind := find_label_first name command_labels i 0 hi hfirst
    rw [Nat.zero_add] at hfind
    unfold execute
    simp only [hload, hfind, hget]
  · intro hno
    unfold execute
    simp only [hload, find_label_none name command_labels hno 0]

/-- A table with the labels `cd`, `help`, `exit`: the argv `["help", "me"]` goes to the handler
at index 1 (here one that returns 1 and counts its calls) and nothing else happens, while
`["HELP"]`, which differs from every label in case, goes to `run`. -/
theorem execute_dispatch_witness :
    execute ["cd".toList, "help".toList, "exit".toList]
        [fun _ n => (1, n), fun _ n => (1, n + 1), fun _ n => (0, n)] okOs
        { fds := stdProc.fds, events := [], user := 0 }
        (Slot.ptr "help".toList :: vec ["me".toList])
      = .ok (.returned 1,
          { fds := stdProc.fds,
            events := [Event.builtin 1 (Slot.ptr "help".toList :: vec ["me".toList])],
            user := 1 })
    ∧ execute ["cd".toList, "help".toList, "exit".toList]
        [fun _ n => (1, n), fun _ n => (1, n + 1), fun _ n => (0, n)] okOs
        { fds := stdProc.fds, events := [], user := 0 } (Slot.ptr "HELP".toList :: vec [])
      = run okOs { fds := stdProc.fds, events := [], user := 0 }
          (Slot.ptr "HELP".toList :: vec []) :=
  ⟨by
      obtain ⟨handler, hget, hexec⟩ :=
        (execute_dispatch ["cd".toList, "help".toList, "exit".toList]
          [fun _ n => (1, n), fun _ n => (1, n + 1), fun _ n => (0, n)] okOs
          { fds := stdProc.fds, events := [], user := (0 : Nat) } "help".toList
          (vec ["me".toList]) rfl).1 1 rfl (by decide)
      cases hget
      exact hexec,
    (execute_dispatch ["cd".toList, "help".toList, "exit".toList]
      [fun _ n => (1, n), fun _ n => (1, n + 1), fun _ n => (0, n)] okOs
      { fds := stdProc.fds, events := [], user := (0 : Nat) } "HELP".toList (vec []) rfl).2
      (by decide)⟩

/-! ## C10: a leading pipe symbol -/

theorem run_stages_skips_empty_stage {σ : Type} (command_labels : List Token)
    (command_functions : List (Handler σ)) (os : Os) (sh : Shell σ) (stage : Buf Token)
    (s : Int) (hs : s ≠ 0) (fuel : Nat) :
    run_stages command_labels command_functions os
        [Slot.ptr (vec []), Slot.ptr stage, Slot.null] (fuel + 3) 0 (some s) sh
      = match execute command_labels command_functions os sh stage with
        | .error e => .error e
        | .ok (.returned s1, sh1) => .ok (.done (some s1), sh1)
        | .ok (.exited code, sh1) => .ok (.exited code, sh1)
        | .ok (.blocked, sh1) => .ok (.blocked, sh1) := by
  have h0 : load [Slot.ptr (vec ([] : List Token)), Slot.ptr stage, Slot.null] 0
      = .ok (some (vec [])) := rfl
  have h1 : load [Slot.ptr (vec ([] : List Token)), Slot.ptr stage, Slot.null] 1
      = .ok (some stage) := rfl
  have h2 : load [Slot.ptr (vec ([] : List Token)), Slot.ptr stage, Slot.null] 2
      = .ok none := rfl
  have hex : execute command_labels command_functions os sh (vec []) = .ok (.returned 1, sh) :=
    rfl
  have one : ¬ (1 : Int) = 0 := by decide
  rw [run_stages]
  simp only [h0, if_neg hs, hex]
  rw [run_stages]
  simp only [Nat.zero_add, h1, if_neg one]
  cases hx : execute command_labels command_functions os sh stage with
  | error e => rfl
  | ok r =>
    obtain ⟨o, sh1⟩ := r
    cases o with
    | returned s1 =>
      simp only []
      rw [run_stages]
      simp only [h2]
    | exited code => rfl
    | blocked => rfl

/-- C10 (code bug). On the tokens `["|", "ls"]` the function `split_into_commands` yields no
stages: after the pipe symbol it executes `commands[1][0] = tokens[1]` through the row pointer
`commands[1]`, which was never initialised, so the call is a fault; hence the line `"| ls"`
never reaches the stage iteration of `loop`, whatever the built-in table, the system and the
state of the interpreter. -/
theorem loop_body_leading_pipe_faults {σ : Type} (command_labels : List Token)
    (command_functions : List (Handler σ)) (os : Os) (status : Option Int) (sh : Shell σ) :
    split_into_tokens "| ls".toList = .ok (tokenBuf ["|".toList, "ls".toList])
      ∧ split_into_commands (tokenBuf ["|".toList, "ls".toList]) = .error .uninitRead
      ∧ loop_body command_labels command_functions os status sh "| ls".toList
          = .error .uninitRead := by
  have h1 : split_into_tokens "| ls".toList = .ok (tokenBuf ["|".toList, "ls".toList]) := by
    decide
  have h2 : split_into_commands (tokenBuf ["|".toList, "ls".toList]) = .error .uninitRead :=
    rfl
  refine ⟨h1, h2, ?_⟩
  unfold loop_body
  rw [h1]
  simp only [h2]

/-! ## C11: a command that cannot be executed -/

theorem fillBuf_head (name : Token) (rest : List Token) (hname : isRedirOp name = false)
    (hlen : (name :: rest).length ≤ 64) :
    ∃ tail, fillBuf (name :: rest) 0 true (malloc Token bufsize) = Slot.ptr name :: tail := by
  cases hany : (name :: rest).any isRedirOp with
  | false =>
    refine ⟨rest.map Slot.ptr ++ malloc Token (64 - (name :: rest).length), ?_⟩
    rw [fillBuf_no_operator (name :: rest) (any_isRedirOp_false _ hany) hlen]
    rfl
  | true =>
    obtain ⟨op, back, hop, hsplit, _⟩ := split_at_first_operator (name :: rest) hany
    have htake : (name :: rest).takeWhile (fun t => !isRedirOp t)
        = name :: rest.takeWhile (fun t => !isRedirOp t) := by
      simp [List.takeWhile_cons, hname]
    have hlen2 : ((name :: rest).takeWhile (fun t => !isRedirOp t) ++ op :: back).length ≤ 64 := by
      rw [← hsplit]; exact hlen
    obtain ⟨tail, htail⟩ := fillBuf_first_operator _ op back (takeWhile_plain (name :: rest))
      hop hlen2
    rw [← hsplit, htake] at htail
    exact ⟨vec (rest.takeWhile (fun t => !isRedirOp t)) ++ tail, htail⟩

/-- C11. For every argv of at most 63 tokens that starts with a command name matching no
built-in label, when `fork` succeeds and `execvp` cannot execute the command, the child prints
`mash: command not found: `, the command name and a newline, and ends with exit status 1 (its
image is not replaced and nothing of the interpreter runs in it); `execute` in the parent
returns the continue status 1 after having reaped that child. -/
theorem execute_command_not_found {σ : Type} (command_labels : List Token)
    (command_functions : List (Handler σ)) (os : Os) (sh : Shell σ) (name : Token)
    (rest : List Token) (pid : Nat)
    (hname : isRedirOp name = false) (hlen : (name :: rest).length ≤ 63)
    (hno : ∀ l ∈ command_labels, l ≠ name) (hfork : os.forkPid = some pid)
    (hfail : os.canExec name = false) :
    ∃ child, run_child os sh.fds (vec (name :: rest)) = .ok child
      ∧ child.file = name
      ∧ child.replaced = false
      ∧ child.printed = "mash: command not found: ".toList ++ name ++ "\n".toList
      ∧ child.exit = some 1
      ∧ execute command_labels command_functions os sh (vec (name :: rest))
          = .ok (.returned 1,
              { fds := sh.fds,
                events := sh.events ++ [Event.spawn pid child, Event.reaped pid 1],
                user := sh.user }) := by
  obtain ⟨tail, htail⟩ := fillBuf_head name rest hname (by omega)
  have hred := redirect_eq os { fds := sh.fds, trace := [] } (name :: rest) (by omega)
  have hchild : run_child os sh.fds (vec (name :: rest))
      = .ok { trace := (redirEffects os { fds := sh.fds, trace := [] } (name :: rest)).trace,
              fds := (redirEffects os { fds := sh.fds, trace := [] } (name :: rest)).fds,
              file := name,
              argv := fillBuf (name :: rest) 0 true (malloc Token bufsize),
              replaced := false,
              printed := "mash: command not found: ".toList ++ name ++ ['\n'],
              exit := some 1 } := by
    unfold run_child
    rw [hred]
    unfold exec_call
    have hload : load (fillBuf (name :: rest) 0 true (malloc Token bufsize)) 0
        = .ok (some name) := by
      rw [htail]; rfl
    simp only [hload, hfail, Bool.false_eq_true, if_false]
  refine ⟨_, hchild, rfl, rfl, rfl, rfl, ?_⟩
  have hload0 : load (vec (name :: rest)) 0 = .ok (some name) := rfl
  unfold execute
  simp only [hload0, find_label_none name command_labels hno 0]
  unfold run
  rw [hfork]
  simp only [hchild]

/-- The spec example `["doesnotexist123"]` on a system that finds no program. -/
theorem execute_command_not_found_witness :
    ∃ child, run_child notFoundOs stdShell.fds (vec ("doesnotexist123".toList :: [])) = .ok child
      ∧ child.file = "doesnotexist123".toList
      ∧ child.replaced = false
      ∧ child.printed
          = "mash: command not found: ".toList ++ "doesnotexist123".toList ++ "\n".toList
      ∧ child.exit = some 1
      ∧ execute exitLabels exitFunctions notFoundOs stdShell
            (vec ("doesnotexist123".toList :: []))
          = .ok (.returned 1,
              { fds := stdShell.fds,
                events := stdShell.events ++ [Event.spawn 100 child, Event.reaped 100 1],
                user := stdShell.user }) :=
  execute_command_not_found exitLabels exitFunctions notFoundOs stdShell
    "doesnotexist123".toList [] 100 (by decide) (by decide) (by decide) rfl rfl

/-! ## C12: the status returned by `run` -/

/-- C12 (counterexample). On a system where the executed program exits with status 3, `run` on
`["sh", "<", "script"]` reaps the child with status 3 and returns 1, not 3. -/
theorem run_discards_exit_status :
    run exit3Os stdShell (vec ["sh".toList, "<".toList, "script".toList])
      = .ok (.returned 1,
          { fds := stdShell.fds,
            events :=
              [Event.spawn 100
                { trace := [Sys.sopen (some "script".toList) O_RDONLY none 3, Sys.dup2 3 0 0,
                    Sys.close 3 0],
                  fds := [some { path := "script".toList, flags := O_RDONLY }, some tty,
                    some tty, none],
                  file := "sh".toList, argv := vec ["sh".toList] ++ malloc Token 62,
                  replaced := true, printed := [], exit := some 3 },
                Event.reaped 100 3],
            user := () }) := by
  decide

/-- C12 (amended). For every argv, once the child has been spawned `run` blocks until that
child has ended: it returns only after the child has been reaped under its pid, and it never
returns when the child never ends.  The value it then returns is the continue status 1,
whatever status was collected: a child that exits with code `c` makes `run` report 1.  This
holds for every argv, also when the behaviour of the child itself is undefined; `run` is never
a fault of the interpreter. -/
theorem run_waits_and_returns_one {σ : Type} (os : Os) (sh : Shell σ) (argv : Buf Token)
    (pid : Nat) (hfork : os.forkPid = some pid) :
    (∀ child c, run_child os sh.fds argv = .ok child → child.exit = some c →
        run os sh argv
          = .ok (.returned 1,
              { fds := sh.fds,
                events := sh.events ++ [Event.spawn pid child, Event.reaped pid c],
                user := sh.user }))
      ∧ (∀ child, run_child os sh.fds argv = .ok child → child.exit = none →
        run os sh argv
          = .ok (.blocked,
              { fds := sh.fds, events := sh.events ++ [Event.spawn pid child],
                user := sh.user }))
      ∧ (∀ e c, run_child os sh.fds argv = .error e → os.crashStatus e = some c →
        run os sh argv
          = .ok (.returned 1,
              { fds := sh.fds,
                events := sh.events ++ [Event.spawnFaulted pid e, Event.reaped pid c],
                user := sh.user }))
      ∧ (∀ e, run_child os sh.fds argv = .error e → os.crashStatus e = none →
        run os sh argv
          = .ok (.blocked,
              { fds := sh.fds, events := sh.events ++ [Event.spawnFaulted pid e],
                user := sh.user }))
      ∧ (∀ s sh1, run os sh argv = .ok (.returned s, sh1) →
          s = 1 ∧ ∃ c, Event.reaped pid c ∈ sh1.events)
      ∧ ∃ o sh1, run os sh argv = .ok (o, sh1) := by
  have h1 : ∀ child c, run_child os sh.fds argv = .ok child → child.exit = some c →
      run os sh argv
        = .ok (.returned 1,
            { fds := sh.fds,
              events := sh.events ++ [Event.spawn pid child, Event.reaped pid c],
              user := sh.user }) := by
    intro child c hchild hc
    unfold run
    rw [hfork]
    simp only [hchild, hc]
  have h2 : ∀ child, run_child os sh.fds argv = .ok child → child.exit = none →
      run os sh argv
        = .ok (.blocked,
            { fds := sh.fds, events := sh.events ++ [Event.spawn pid child],
              user := sh.user }) := by
    intro child hchild hc
    unfold run
    rw [hfork]
    simp only [hchild, hc]
  have h3 : ∀ e c, run_child os sh.fds argv = .error e → os.crashStatus e = some c →
      run os sh argv
        = .ok (.returned 1,
            { fds := sh.fds,
              events := sh.events ++ [Event.spawnFaulted pid e, Event.reaped pid c],
              user := sh.user }) := by
    intro e c hchild hc
    unfold run
    rw [hfork]
    simp only [hchild, hc]
  have h4 : ∀ e, run_child os sh.fds argv = .error e → os.crashStatus e = none →
      run os sh argv
        = .ok (.blocked,
            { fds := sh.fds, events := sh.events ++ [Event.spawnFaulted pid e],
              user := sh.user }) := by
    intro e hchild hc
    unfold run
    rw [hfork]
    simp only [hchild, hc]
  refine ⟨h1, h2, h3, h4, ?_, ?_⟩
  · intro s sh1 hrun
    cases hchild : run_child os sh.fds argv with
    | error e =>
      cases hc : os.crashStatus e with
      | none =>
        rw [h4 e hchild hc] at hrun
        cases hrun
      | some c =>
        rw [h3 e c hchild hc] at hrun
        cases hrun
        exact ⟨rfl, c, by simp⟩
    | ok child =>
      cases hc : child.exit with
      | none =>
        rw [h2 child hchild hc] at hrun
        cases hrun
      | some c =>
        rw [h1 child c hchild hc] at hrun
        cases hrun
        exact ⟨rfl, c, by simp⟩
  · cases hchild : run_child os sh.fds argv with
    | error e =>
      cases hc : os.crashStatus e with
      | none => exact ⟨_, _, h4 e hchild hc⟩
      | some c => exact ⟨_, _, h3 e c hchild hc⟩
    | ok child =>
      cases hc : child.exit with
      | none => exact ⟨_, _, h2 child hchild hc⟩
      | some c => exact ⟨_, _, h1 child c hchild hc⟩

/-- On a system where every program exits with status 3: the stage `["sh", "<", "script"]`,
whose child exits with 3, and the ordinary command `["ls", "-la"]`, whose child is started on
an argument vector without end marker; `run` returns 1 for both. -/
theorem run_waits_and_returns_one_witness :
    run exit3Os stdShell (vec ["sh".toList, "<".toList, "script".toList])
        = .ok (.returned 1,
            { fds := stdShell.fds,
              events := stdShell.events ++
                [Event.spawn 100
                  { trace := [Sys.sopen (some "script".toList) O_RDONLY none 3,
                      Sys.dup2 3 0 0, Sys.close 3 0],
                    fds := [some { path := "script".toList, flags := O_RDONLY }, some tty,
                      some tty, none],
                    file := "sh".toList, argv := vec ["sh".toList] ++ malloc Token 62,
                    replaced := true, printed := [], exit := some 3 },
                  Event.reaped 100 3],
              user := stdShell.user })
      ∧ run exit3Os stdShell (vec ["ls".toList, "-la".toList])
        = .ok (.returned 1,
            { fds := stdShell.fds,
              events := stdShell.events ++
                [Event.spawnFaulted 100 Fault.uninitRead, Event.reaped 100 139],
              user := stdShell.user }) :=
  ⟨(run_waits_and_returns_one exit3Os stdShell
      (vec ["sh".toList, "<".toList, "script".toList]) 100 rfl).1
      { trace := [Sys.sopen (some "script".toList) O_RDONLY none 3, Sys.dup2 3 0 0,
          Sys.close 3 0],
        fds := [some { path := "script".toList, flags := O_RDONLY }, some tty, some tty, none],
        file := "sh".toList, argv := vec ["sh".toList] ++ malloc Token 62,
        replaced := true, printed := [], exit := some 3 }
      3 (by decide) rfl,
    (run_waits_and_returns_one exit3Os stdShell (vec ["ls".toList, "-la".toList]) 100 rfl).2.2.1
      Fault.uninitRead 139 (by decide) rfl⟩

/-! ## C13: a failing `fork` -/

/-- C13 (counterexample). On a system where `fork` fails, `run` on `["ls"]` calls
`perror("mash")` and ends the interpreter with `exit(1)`; so does `execute`, since `ls` is no
built-in. -/
theorem run_fork_failure_exits :
    run noForkOs stdShell (vec ["ls".toList])
        = .ok (.exited 1,
            { fds := stdShell.fds, events := [Event.perror "mash".toList], user := () })
      ∧ execute exitLabels exitFunctions noForkOs stdShell (vec ["ls".toList])
        = .ok (.exited 1,
            { fds := stdShell.fds, events := [Event.perror "mash".toList], user := () }) := by
  decide

/-- C13 (amended). When `fork` fails, `run` reports the error with `perror("mash")` and then
terminates the interpreter process with `exit(1)`: it does not return to its caller.  The same
holds for `execute` on a command that is no built-in, and the stage iteration of `loop` ends
there with the interpreter exited, so that no further stage or line is processed. -/
theorem run_fork_failure_terminates {σ : Type} (command_labels : List Token)
    (command_functions : List (Handler σ)) (os : Os) (sh : Shell σ) (name : Token)
    (rest : Buf Token) (hfork : os.forkPid = none) (hno : ∀ l ∈ command_labels, l ≠ name) :
    run os sh (Slot.ptr name :: rest)
        = .ok (.exited 1,
            { fds := sh.fds, events := sh.events ++ [Event.perror "mash".toList],
              user := sh.user })
      ∧ execute command_labels command_functions os sh (Slot.ptr name :: rest)
        = .ok (.exited 1,
            { fds := sh.fds, events := sh.events ++ [Event.perror "mash".toList],
              user := sh.user })
      ∧ ∀ (commands : Buf (Buf Token)) (fuel i : Nat) (s : Int),
          load commands i = .ok (some (Slot.ptr name :: rest)) → s ≠ 0 →
          run_stages command_labels command_functions os commands (fuel + 1) i (some s) sh
            = .ok (.exited 1,
                { fds := sh.fds, events := sh.events ++ [Event.perror "mash".toList],
                  user := sh.user }) := by
  have hrun : run os sh (Slot.ptr name :: rest)
      = .ok (.exited 1,
          { fds := sh.fds, events := sh.events ++ [Event.perror "mash".toList],
            user := sh.user }) := by
    unfold run
    rw [hfork]
  have hload : load (Slot.ptr name :: rest) 0 = .ok (some name) := rfl
  have hexec : execute command_labels command_functions os sh (Slot.ptr name :: rest)
      = .ok (.exited 1,
          { fds := sh.fds, events := sh.events ++ [Event.perror "mash".toList],
            user := sh.user }) := by
    unfold execute
    simp only [hload, find_label_none name command_labels hno 0]
    exact hrun
  refine ⟨hrun, hexec, ?_⟩
  intro commands fuel i s hstage hs
  rw [run_stages]
  simp only [hstage, if_neg hs, hexec]

/-- The command `ls` on a system where `fork` fails. -/
theorem run_fork_failure_terminates_witness :
    run noForkOs stdShell (Slot.ptr "ls".toList :: vec [])
        = .ok (.exited 1,
            { fds := stdShell.fds,
              events := stdShell.events ++ [Event.perror "mash".toList],
              user := stdShell.user })
      ∧ execute exitLabels exitFunctions noForkOs stdShell (Slot.ptr "ls".toList :: vec [])
        = .ok (.exited 1,
            { fds := stdShell.fds,
              events := stdShell.events ++ [Event.perror "mash".toList],
              user := stdShell.user }) :=
  ⟨(run_fork_failure_terminates exitLabels exitFunctions noForkOs stdShell "ls".toList (vec [])
      rfl (by decide)).1,
    (run_fork_failure_terminates exitLabels exitFunctions noForkOs stdShell "ls".toList (vec [])
      rfl (by decide)).2.1⟩

/-! ## C14, C15: the streams of the stages and of the interpreter -/

theorem bindStream_frame (os : Os) (p : Proc) (path : Option Token) (flags : Nat)
    (mode : Option Nat) (t k : Nat) (hk : k ≠ t) :
    getFd (bindStream os p path flags mode (Int.ofNat t)).fds k = getFd p.fds k := by
  by_cases hfail : ∀ f, path = some f → os.canOpen f flags = false
  · rw [bindStream_fail os p path flags mode _ hfail]
  · have hex : ∃ f, path = some f ∧ os.canOpen f flags = true := by
      by_contra hne
      apply hfail
      intro f hf
      cases hc : os.canOpen f flags with
      | false => rfl
      | true => exact absurd ⟨f, hf, hc⟩ hne
    obtain ⟨f, rfl, hopen⟩ := hex
    have hfree := getFd_lowestFree p.fds
    have hnn : ∀ n : Nat, (0 : Int) ≤ Int.ofNat n := fun n => Int.ofNat_nonneg n
    have hto : ∀ n : Nat, (Int.ofNat n).toNat = n := fun _ => rfl
    have h1 : sys_open os p (some f) flags mode
        = (Int.ofNat (lowestFree p.fds),
          { fds := setFd p.fds (lowestFree p.fds) (some { path := f, flags := flags }),
            trace := p.trace ++ [Sys.sopen (some f) flags mode (Int.ofNat (lowestFree p.fds))] }) := by
      simp [sys_open, hopen]
    unfold bindStream
    rw [h1]
    unfold sys_close sys_dup2
    simp only [hto, getFd_setFd, if_true, Option.isSome_some, hnn, true_and]
    by_cases hkn : k = lowestFree p.fds
    · subst hkn
      split_ifs <;> simp_all [getFd_setFd]
    · split_ifs <;> simp_all [getFd_setFd]

theorem redirEffects_keeps_stdin (os : Os) (ts : List Token) (hno : ltTok ∉ ts) :
    ∀ p : Proc, getFd (redirEffects os p ts).fds 0 = getFd p.fds 0 := by
  induction ts with
  | nil => intro p; rfl
  | cons a ts ih =>
    intro p
    have ha : ¬ a = ltTok := fun h => hno (h ▸ List.mem_cons_self a ts)
    have hts : ltTok ∉ ts := fun h => hno (List.mem_cons_of_mem a h)
    simp only [redirEffects, if_neg ha]
    by_cases h2 : a = gtTok
    · rw [if_pos h2, ih hts]
      exact bindStream_frame os p _ _ _ 1 0 (by decide)
    · rw [if_neg h2]
      exact ih hts p

theorem redirEffects_keeps_stdout (os : Os) (ts : List Token) (hno : gtTok ∉ ts) :
    ∀ p : Proc, getFd (redirEffects os p ts).fds 1 = getFd p.fds 1 := by
  induction ts with
  | nil => intro p; rfl
  | cons a ts ih =>
    intro p
    have ha : ¬ a = gtTok := fun h => hno (h ▸ List.mem_cons_self a ts)
    have hts : gtTok ∉ ts := fun h => hno (List.mem_cons_of_mem a h)
    simp only [redirEffects, if_neg ha]
    by_cases h1 : a = ltTok
    · rw [if_pos h1, ih hts]
      exact bindStream_frame os p _ _ _ 0 1 (by decide)
    · rw [if_neg h1]
      exact ih hts p

theorem run_total {σ : Type} (os : Os) (sh : Shell σ) (argv : Buf Token) :
    ∃ o events, run os sh argv
      = .ok (o, { fds := sh.fds, events := events, user := sh.user }) := by
  cases hf : os.forkPid with
  | none =>
    refine ⟨.exited 1, sh.events ++ [Event.perror "mash".toList], ?_⟩
    unfold run
    simp only [hf]
  | some pid =>
    cases hchild : run_child os sh.fds argv with
    | error e =>
      cases hc : os.crashStatus e with
      | none =>
        refine ⟨.blocked, sh.events ++ [Event.spawnFaulted pid e], ?_⟩
        unfold run
        simp only [hf, hchild, hc]
      | some c =>
        refine ⟨.returned 1, sh.events ++ [Event.spawnFaulted pid e, Event.reaped pid c], ?_⟩
        unfold run
        simp only [hf, hchild, hc]
    | ok child =>
      cases hc : child.exit with
      | none =>
        refine ⟨.blocked, sh.events ++ [Event.spawn pid child], ?_⟩
        unfold run
        simp only [hf, hchild, hc]
      | some c =>
        refine ⟨.returned 1, sh.events ++ [Event.spawn pid child, Event.reaped pid c], ?_⟩
        unfold run
        simp only [hf, hchild, hc]

theorem find_label_bound (name : Token) (labels : List Token) :
    ∀ k i, find_label name labels k = some i → i < k + labels.length := by
  induction labels with
  | nil => intro k i h; simp [find_label] at h
  | cons l labels ih =>
    intro k i h
    by_cases hl : name = l
    · simp only [find_label, if_pos hl, Option.some.injEq] at h
      subst h
      simp
    · simp only [find_label, if_neg hl] at h
      have := ih (k + 1) i h
      simp only [List.length_cons]
      omega

/-- C15. Redirection is applied only in the child.  For every argv, whatever tokens it holds and
whether its name is a built-in label or not, `execute` (with a built-in table whose two arrays
are parallel) and `run` come back to the interpreter, and the descriptor table of the
interpreter, standard input and standard output included, is then the one it had before the
call; `run` does so on every array it is handed, and `execute` whenever it comes back. -/
theorem execute_keeps_shell_streams {σ : Type} (command_labels : List Token)
    (command_functions : List (Handler σ)) (os : Os) (sh : Shell σ) (ts : List Token)
    (hparallel : command_labels.length = command_functions.length) :
    (∃ o sh1, execute command_labels command_functions os sh (vec ts) = .ok (o, sh1)
        ∧ sh1.fds = sh.fds)
      ∧ (∀ argv : Buf Token, ∃ o sh1, run os sh argv = .ok (o, sh1) ∧ sh1.fds = sh.fds)
      ∧ (∀ (argv : Buf Token) o sh1,
          execute command_labels command_functions os sh argv = .ok (o, sh1) →
          sh1.fds = sh.fds) := by
  have hrun : ∀ argv : Buf Token, ∃ o sh1, run os sh argv = .ok (o, sh1) ∧ sh1.fds = sh.fds := by
    intro argv
    obtain ⟨o, events, h⟩ := run_total os sh argv
    exact ⟨o, _, h, rfl⟩
  refine ⟨?_, hrun, ?_⟩
  · cases ts with
    | nil => exact ⟨.returned 1, sh, rfl, rfl⟩
    | cons name rest =>
      have hload : load (vec (name :: rest)) 0 = .ok (some name) := rfl
      unfold execute
      simp only [hload]
      cases hfind : find_label name command_labels 0 with
      | none => exact hrun _
      | some i =>
        have hlt : i < command_functions.length := by
          have := find_label_bound name command_labels 0 i hfind
          omega
        have hget : command_functions.get? i = some (command_functions.get ⟨i, hlt⟩) := by
          rw [List.get?_eq_getElem?, List.getElem?_eq_getElem hlt]
          rfl
        simp only [hget]
        exact ⟨_, _, rfl, rfl⟩
  · intro argv o sh1 hexec
    unfold execute at hexec
    split at hexec
    · cases hexec
    · cases hexec
      rfl
    · split at hexec
      · split at hexec
        · cases hexec
        · cases hexec
          rfl
      · obtain ⟨o2, events, h⟩ := run_total os sh argv
        rw [h] at hexec
        cases hexec
        rfl

/-- The ordinary command `["ls", "-la"]`, the stage `["cat", ">", "out.txt"]` (in whose child
descriptor 1 is bound to `out.txt`) and the built-in `exit`: each time the table of the
interpreter is unchanged. -/
theorem execute_keeps_shell_streams_witness :
    execute exitLabels exitFunctions okOs stdShell (vec ["ls".toList, "-la".toList])
        = .ok (.returned 1,
            { fds := stdShell.fds,
              events := [Event.spawnFaulted 100 Fault.uninitRead, Event.reaped 100 139],
              user := () })
      ∧ execute exitLabels exitFunctions okOs stdShell
          (vec ["cat".toList, ">".toList, "out.txt".toList])
        = .ok (.returned 1,
            { fds := stdShell.fds,
              events :=
                [Event.spawn 100
                  { trace := [Sys.sopen (some "out.txt".toList) outFlags (some outMode) 3,
                      Sys.dup2 3 1 1, Sys.close 3 0],
                    fds := [some tty, some { path := "out.txt".toList, flags := outFlags },
                      some tty, none],
                    file := "cat".toList, argv := vec ["cat".toList] ++ malloc Token 62,
                    replaced := true, printed := [], exit := some 0 },
                  Event.reaped 100 0],
              user := () })
      ∧ (∃ o sh1, execute exitLabels exitFunctions okOs stdShell (vec ["exit".toList])
            = .ok (o, sh1) ∧ sh1.fds = stdShell.fds) :=
  ⟨by decide, by decide,
    (execute_keeps_shell_streams exitLabels exitFunctions okOs stdShell ["exit".toList]
      rfl).1⟩

/-! ## C16, C17: the interactive loop -/

theorem split_into_commands_untouched (tokens : Buf Token) :
    (∃ e, split_into_commands tokens = .error e)
      ∨ (∃ tokens1, split_into_commands tokens = .ok (malloc (Buf Token) bufsize, tokens1)) := by
  unfold split_into_commands
  rcases split_into_commands_loop_untouched tokens (tokens.length + 1) 0 0 0 with
    ⟨e, he⟩ | ⟨n, hn⟩
  · rw [he]; exact Or.inl ⟨e, rfl⟩
  · rw [hn]
    simp only []
    cases hs : store tokens n Slot.null with
    | error e => exact Or.inl ⟨e, rfl⟩
    | ok tokens1 => exact Or.inr ⟨tokens1, rfl⟩

theorem loop_body_faults {σ : Type} (command_labels : List Token)
    (command_functions : List (Handler σ)) (os : Os) (status : Option Int) (sh : Shell σ)
    (line : List Char) :
    ∃ e, loop_body command_labels command_functions os status sh line = .error e := by
  unfold loop_body
  cases ht : split_into_tokens line with
  | error e => exact ⟨e, rfl⟩
  | ok argv =>
    rcases split_into_commands_untouched argv with ⟨e, he⟩ | ⟨tokens1, hok⟩
    · simp only [he]
      exact ⟨e, rfl⟩
    · simp only [hok]
      exact ⟨.uninitRead, rfl⟩

theorem loop_iter_faults {σ : Type} (command_labels : List Token)
    (command_functions : List (Handler σ)) (os : Os) (fuel : Nat) (status : Option Int)
    (sh : Shell σ) (input : List (List Char)) :
    ∃ e, loop_iter command_labels command_functions os fuel status sh input = .error e := by
  cases fuel with
  | zero => exact ⟨.outOfFuel, rfl⟩
  | succ fuel =>
    unfold loop_iter
    cases hin : (get_input input).1 with
    | none => exact ⟨.uninitRead, rfl⟩
    | some line =>
      obtain ⟨e, he⟩ := loop_body_faults command_labels command_functions os status sh line
      simp only [he]
      exact ⟨e, rfl⟩

theorem run_stages_stops_at_zero {σ : Type} (command_labels : List Token)
    (command_functions : List (Handler σ)) (os : Os) (commands : Buf (Buf Token))
    (fuel i : Nat) (sh : Shell σ) :
    (∃ e, run_stages command_labels command_functions os commands (fuel + 1) i (some 0) sh
        = .error e)
      ∨ run_stages command_labels command_functions os commands (fuel + 1) i (some 0) sh
        = .ok (.done (some 0), sh) := by
  rw [run_stages]
  cases hl : load commands i with
  | error e => exact Or.inl ⟨e, rfl⟩
  | ok o =>
    cases o with
    | none => exact Or.inr rfl
    | some stage => exact Or.inr rfl

/-- C16 (code bug). With a built-in `exit` whose handler returns the terminating status 0 and
the single input line `exit`, `loop` does not stop with status 0: it faults before any stage is
dispatched, because `split_into_commands` writes through the uninitialised `commands[0]`.  In
general no run of `loop` dispatches a stage or returns a value: every run ends in a fault, in
the tokenizer (more than 63 tokens), in the splitter, in the first test `commands[0] != NULL`
on the array the splitter never wrote, or at the end of input. -/
theorem loop_faults_before_any_stage {σ : Type} (command_labels : List Token)
    (command_functions : List (Handler σ)) (os : Os) (fuel : Nat) (sh : Shell σ)
    (input : List (List Char)) :
    loop exitLabels exitFunctions okOs 10 stdShell ["exit\n".toList] = .error .uninitRead
      ∧ ∃ e, main command_labels command_functions os fuel sh input = .error e :=
  ⟨rfl, loop_iter_faults command_labels command_functions os fuel none sh input⟩

/-- C17 (code bug). At end of input `get_input` has no line to return, yet `loop` has no test
for it: the body of the loop is entered with the buffer that `getline` did not fill, which is
a fault, whatever the built-in table, the system, the value of `status` and the state of the
interpreter; `loop` started on an empty input does not return. -/
theorem loop_end_of_input_unhandled {σ : Type} (command_labels : List Token)
    (command_functions : List (Handler σ)) (os : Os) (fuel : Nat) (status : Option Int)
    (sh : Shell σ) :
    get_input [] = (none, [])
      ∧ loop_iter command_labels command_functions os (fuel + 1) status sh []
          = .error .uninitRead
      ∧ loop exitLabels exitFunctions okOs 10 stdShell [] = .error .uninitRead :=
  ⟨rfl, rfl, rfl⟩

/-! ## C18: several redirections of the same stream -/

theorem bindStream_keeps_open (os : Os) (p : Proc) (path : Option Token) (flags : Nat)
    (mode : Option Nat) (t k : Nat) (hopen : (getFd p.fds k).isSome = true) :
    (getFd (bindStream os p path flags mode (Int.ofNat t)).fds k).isSome = true := by
  by_cases hk : k = t
  · subst hk
    by_cases hfail : ∀ f, path = some f → os.canOpen f flags = false
    · rw [bindStream_fail os p path flags mode _ hfail]
      exact hopen
    · have hex : ∃ f, path = some f ∧ os.canOpen f flags = true := by
        by_contra hne
        apply hfail
        intro f hf
        cases hc : os.canOpen f flags with
        | false => rfl
        | true => exact absurd ⟨f, hf, hc⟩ hne
      obtain ⟨f, rfl, hcan⟩ := hex
      have h := (bindStream_ok os p f flags mode k hcan hopen).1 k
      rw [h, if_pos rfl]
      rfl
  · rw [bindStream_frame os p path flags mode t k hk]
    exact hopen

theorem redirEffects_last_output (os : Os) (path : Token) (back : List Token)
    (hpath : isRedirOp path = false) (hlast : gtTok ∉ back)
    (hcan : os.canOpen path outFlags = true) (front : List Token) :
    ∀ p : Proc, (getFd p.fds 1).isSome = true →
      getFd (redirEffects os p (front ++ gtTok :: path :: back)).fds 1
        = some { path := path, flags := outFlags } := by
  induction front with
  | nil =>
    intro p hopen
    have hp := (isRedirOp_false_iff path).mp hpath
    have hne : ¬ gtTok = ltTok := by decide
    have hno : gtTok ∉ path :: back := by
      intro h
      rcases List.mem_cons.mp h with h | h
      · exact hp.2 h.symm
      · exact hlast h
    have step : redirEffects os p ([] ++ gtTok :: path :: back)
        = redirEffects os (bindStream os p (some path) outFlags (some outMode) 1)
            (path :: back) := by
      simp [redirEffects, hne]
    rw [step, redirEffects_keeps_stdout os (path :: back) hno]
    have h := (bindStream_ok os p path outFlags (some outMode) 1 hcan hopen).1 1
    simpa using h
  | cons a front ih =>
    intro p hopen
    have step : redirEffects os p (a :: (front ++ gtTok :: path :: back))
        = if a = ltTok then
            redirEffects os
              (bindStream os p (front ++ gtTok :: path :: back).head? O_RDONLY none 0)
              (front ++ gtTok :: path :: back)
          else if a = gtTok then
            redirEffects os
              (bindStream os p (front ++ gtTok :: path :: back).head? outFlags (some outMode) 1)
              (front ++ gtTok :: path :: back)
          else redirEffects os p (front ++ gtTok :: path :: back) := rfl
    rw [List.cons_append, step]
    by_cases h1 : a = ltTok
    · rw [if_pos h1]
      exact ih _ (bindStream_keeps_open os p _ _ _ 0 1 hopen)
    · rw [if_neg h1]
      by_cases h2 : a = gtTok
      · rw [if_pos h2]
        exact ih _ (bindStream_keeps_open os p _ _ _ 1 1 hopen)
      · rw [if_neg h2]
        exact ih p hopen

theorem redirEffects_last_input (os : Os) (path : Token) (back : List Token)
    (hpath : isRedirOp path = false) (hlast : ltTok ∉ back)
    (hcan : os.canOpen path O_RDONLY = true) (front : List Token) :
    ∀ p : Proc, (getFd p.fds 0).isSome = true →
      getFd (redirEffects os p (front ++ ltTok :: path :: back)).fds 0
        = some { path := path, flags := O_RDONLY } := by
  induction front with
  | nil =>
    intro p hopen
    have hp := (isRedirOp_false_iff path).mp hpath
    have hno : ltTok ∉ path :: back := by
      intro h
      rcases List.mem_cons.mp h with h | h
      · exact hp.1 h.symm
      · exact hlast h
    have step : redirEffects os p ([] ++ ltTok :: path :: back)
        = redirEffects os (bindStream os p (some path) O_RDONLY none 0) (path :: back) := by
      simp [redirEffects]
    rw [step, redirEffects_keeps_stdin os (path :: back) hno]
    have h := (bindStream_ok os p path O_RDONLY none 0 hcan hopen).1 0
    simpa using h
  | cons a front ih =>
    intro p hopen
    have step : redirEffects os p (a :: (front ++ ltTok :: path :: back))
        = if a = ltTok then
            redirEffects os
              (bindStream os p (front ++ ltTok :: path :: back).head? O_RDONLY none 0)
              (front ++ ltTok :: path :: back)
          else if a = gtTok then
            redirEffects os
              (bindStream os p (front ++ ltTok :: path :: back).head? outFlags (some outMode) 1)
              (front ++ ltTok :: path :: back)
          else redirEffects os p (front ++ ltTok :: path :: back) := rfl
    rw [List.cons_append, step]
    by_cases h1 : a = ltTok
    · rw [if_pos h1]
      exact ih _ (bindStream_keeps_open os p _ _ _ 0 0 hopen)
    · rw [if_neg h1]
      by_cases h2 : a = gtTok
      · rw [if_pos h2]
        exact ih _ (bindStream_keeps_open os p _ _ _ 1 0 hopen)
      · rw [if_neg h2]
        exact ih p hopen

/-- C18. For every stage argv of at most 63 tokens in a process whose standard streams are open:
if the argv holds two or more `">"` operators and the last of them is followed by a path that
can be opened, then after `redirect` descriptor 1 is bound to the file of that last path; if it
holds two or more `"<"` operators and the last of them is followed by a path that can be
opened, then descriptor 0 is bound to the file of that last path. -/
theorem redirect_last_operator_wins (os : Os) (p : Proc) (front : List Token) (path : Token)
    (back : List Token) (hpath : isRedirOp path = false)
    (hlen : front.length + 2 + back.length ≤ 63) :
    (gtTok ∈ front → gtTok ∉ back → os.canOpen path outFlags = true →
        (getFd p.fds 1).isSome = true →
        ∃ new_argv q, redirect os p (vec (front ++ gtTok :: path :: back)) = .ok (new_argv, q)
          ∧ getFd q.fds 1 = some { path := path, flags := outFlags })
      ∧ (ltTok ∈ front → ltTok ∉ back → os.canOpen path O_RDONLY = true →
        (getFd p.fds 0).isSome = true →
        ∃ new_argv q, redirect os p (vec (front ++ ltTok :: path :: back)) = .ok (new_argv, q)
          ∧ getFd q.fds 0 = some { path := path, flags := O_RDONLY }) := by
  constructor
  · intro _ hlast hcan hopen
    have hl : (front ++ gtTok :: path :: back).length ≤ 64 := by simp; omega
    exact ⟨_, _, redirect_eq os p _ hl,
      redirEffects_last_output os path back hpath hlast hcan front p hopen⟩
  · intro _ hlast hcan hopen
    have hl : (front ++ ltTok :: path :: back).length ≤ 64 := by simp; omega
    exact ⟨_, _, redirect_eq os p _ hl,
      redirEffects_last_input os path back hpath hlast hcan front p hopen⟩

/-- The stages `cmd > a > b` and `cmd < a < b`: the stream ends up on `b`. -/
theorem redirect_last_operator_wins_witness :
    (∃ new_argv q,
        redirect okOs stdProc
            (vec (["cmd".toList, ">".toList, "a".toList] ++ gtTok :: "b".toList :: []))
          = .ok (new_argv, q)
        ∧ getFd q.fds 1 = some { path := "b".toList, flags := outFlags })
      ∧ (∃ new_argv q,
        redirect okOs stdProc
            (vec (["cmd".toList, "<".toList, "a".toList] ++ ltTok :: "b".toList :: []))
          = .ok (new_argv, q)
        ∧ getFd q.fds 0 = some { path := "b".toList, flags := O_RDONLY }) :=
  ⟨(redirect_last_operator_wins okOs stdProc ["cmd".toList, ">".toList, "a".toList] "b".toList
      [] (by decide) (by decide)).1 (by decide) (by decide) rfl rfl,
    (redirect_last_operator_wins okOs stdProc ["cmd".toList, "<".toList, "a".toList] "b".toList
      [] (by decide) (by decide)).2 (by decide) (by decide) rfl rfl⟩

/-! ## C19: the capacity of the arrays -/

theorem split_into_tokens_loop_overflow (s : List Char) (ts : List Token)
    (hruns : MaximalRuns s ts) :
    ∀ (fuel : Nat) (pre : Buf Token) (m : Nat), s.length < fuel → m ≤ ts.length →
      split_into_tokens_loop fuel (strtok s) pre.length
          (pre ++ List.replicate m Slot.uninit)
        = .error .outOfBounds := by
  induction hruns with
  | done ds hds =>
    intro fuel pre m hfuel hm
    obtain ⟨f, rfl⟩ : ∃ f, fuel = f + 1 := ⟨fuel - 1, by omega⟩
    have hm0 : m = 0 := by simpa using hm
    subst hm0
    rw [strtok_only_delims ds hds]
    simp [split_into_tokens_loop, store]
  | run ds t rest ts hds hne ht hmax hrest ih =>
    intro fuel pre m hfuel hm
    obtain ⟨f, rfl⟩ : ∃ f, fuel = f + 1 := ⟨fuel - 1, by omega⟩
    have htl : 0 < t.length := List.length_pos.mpr hne
    rw [List.append_assoc, strtok_delims ds (t ++ rest) hds, strtok_token t rest hne ht hmax]
    cases m with
    | zero => simp [split_into_tokens_loop, store]
    | succ k =>
      simp only [split_into_tokens_loop]
      rw [store_append_uninit]
      simp only []
      rw [strtok_tail rest hmax]
      have hlen : (pre ++ [Slot.ptr t]).length = pre.length + 1 := by simp
      have e1 : pre ++ Slot.ptr t :: List.replicate k Slot.uninit
          = (pre ++ [Slot.ptr t]) ++ List.replicate k Slot.uninit := by simp
      rw [e1, ← hlen]
      exact ih f (pre ++ [Slot.ptr t]) k (by simp at hfuel; omega) (by simp at hm; omega)

theorem fillBuf_length (ts : List Token) :
    ∀ (i : Nat) (new_arg : Bool) (buf : Buf Token),
      (fillBuf ts i new_arg buf).length = buf.length := by
  induction ts with
  | nil => intro i new_arg buf; rfl
  | cons a ts ih =>
    intro i new_arg buf
    simp only [fillBuf]
    split_ifs <;> simp [ih]

set_option maxRecDepth 20000 in
/-- C19 (counterexample). A line of 64 one-letter tokens: `split_into_tokens` stores the 64
tokens and then writes the end marker to `tokens[64]`, outside the 64-slot array. -/
theorem split_into_tokens_overflows_at_64 :
    split_into_tokens (List.replicate 64 "a ".toList).flatten = .error .outOfBounds := by
  decide

/-- C19 (amended). The arrays have a fixed capacity of 64 slots.  For every line whose tokens
`ts` number at most 63, `split_into_tokens` stores every token and the end marker inside its
64-slot array, and `redirect` on a stage holding those tokens returns a 64-slot array; a line of
64 or more tokens makes `split_into_tokens` write outside its array. -/
theorem split_into_tokens_capacity (line : List Char) (ts : List Token)
    (hruns : MaximalRuns (cstr line) ts) :
    (ts.length ≤ 63 →
        split_into_tokens line = .ok (tokenBuf ts) ∧ (tokenBuf ts).length = 64)
      ∧ (64 ≤ ts.length → split_into_tokens line = .error .outOfBounds)
      ∧ (∀ (os : Os) (p : Proc), ts.length ≤ 63 →
          ∃ new_argv q, redirect os p (vec ts) = .ok (new_argv, q) ∧ new_argv.length = 64) := by
  refine ⟨?_, ?_, ?_⟩
  · intro hcap
    have h := split_into_tokens_loop_runs (cstr line) ts hruns ((cstr line).length + 1) [] 64
      (by omega) (by omega)
    simp only [List.nil_append, List.length_nil] at h
    have e : 64 - ts.length - 1 = 63 - ts.length := by omega
    rw [e] at h
    refine ⟨?_, ?_⟩
    · unfold split_into_tokens malloc bufsize tokenBuf
      rw [h]
      rfl
    · simp [tokenBuf, vec, malloc]
      omega
  · intro hover
    have h := split_into_tokens_loop_overflow (cstr line) ts hruns ((cstr line).length + 1) []
      64 (by omega) hover
    simp only [List.nil_append, List.length_nil] at h
    unfold split_into_tokens malloc bufsize
    exact h
  · intro os p hcap
    refine ⟨_, _, redirect_eq os p ts (by omega), ?_⟩
    rw [fillBuf_length]
    simp [malloc, bufsize]

/-- The line `"ls -la"`: two tokens, stored inside the 64-slot array. -/
theorem split_into_tokens_capacity_witness :
    split_into_tokens "ls -la".toList = .ok (tokenBuf ["ls".toList, "-la".toList])
      ∧ (tokenBuf ["ls".toList, "-la".toList]).length = 64 :=
  (split_into_tokens_capacity "ls -la".toList ["ls".toList, "-la".toList]
    (MaximalRuns.run [] "ls".toList " -la".toList _
      (by decide) (by decide) (by decide) (Or.inr ⟨' ', "-la".toList, rfl, by decide⟩)
      (MaximalRuns.run " ".toList "-la".toList [] _
        (by decide) (by decide) (by decide) (Or.inl rfl)
        (MaximalRuns.done [] (by decide))))).1 (by decide)

/-! ## C20: the residual argv of a stage with a redirection -/

theorem load_vec_append_end {α : Type} (ts : List α) (tail : Buf α) :
    load (vec ts ++ tail) ts.length = .ok none := by
  unfold load vec
  have h : (List.map Slot.ptr ts ++ [Slot.null] ++ tail).get? ts.length = some Slot.null := by
    induction ts with
    | nil => rfl
    | cons b ts ih => simpa using ih
  rw [h]

/-- C20. For every stage argv of at most 63 tokens that contains a `"<"` or `">"` token, the
residual argv returned by `redirect` is exactly the part of argv before the first redirection
operator, and the end marker sits at the index of that operator: it holds no `"<"` and no
`">"`, and no token from the first operator on, operand or not. -/
theorem redirect_residual_is_leading_part (os : Os) (p : Proc) (ts : List Token)
    (hlen : ts.length ≤ 63) (hop : ts.any isRedirOp = true) :
    ∃ new_argv q op back, redirect os p (vec ts) = .ok (new_argv, q)
      ∧ isRedirOp op = true
      ∧ ts = ts.takeWhile (fun t => !isRedirOp t) ++ op :: back
      ∧ readVec new_argv = .ok (ts.takeWhile (fun t => !isRedirOp t))
      ∧ load new_argv (ts.takeWhile (fun t => !isRedirOp t)).length = .ok none
      ∧ ∀ t ∈ ts.takeWhile (fun t => !isRedirOp t), isRedirOp t = false := by
  obtain ⟨op, back, hopb, hsplit, _⟩ := split_at_first_operator ts hop
  have hlen2 : (ts.takeWhile (fun t => !isRedirOp t) ++ op :: back).length ≤ 64 := by
    rw [← hsplit]; omega
  obtain ⟨tail, htail⟩ := fillBuf_first_operator (ts.takeWhile (fun t => !isRedirOp t)) op back
    (takeWhile_plain ts) hopb hlen2
  rw [← hsplit] at htail
  refine ⟨_, _, op, back, redirect_eq os p ts (by omega), hopb, hsplit, ?_, ?_,
    takeWhile_plain ts⟩
  · rw [htail, readVec_vec_append]
  · rw [htail, load_vec_append_end]

/-- The stage `["sort", "-r", "<", "in.txt", "-u", ">", "out.txt"]`: the residual argv is
`["sort", "-r"]` and slot 2 holds the end marker. -/
theorem redirect_residual_is_leading_part_witness :
    ∃ new_argv q op back,
      redirect okOs stdProc
          (vec ["sort".toList, "-r".toList, "<".toList, "in.txt".toList, "-u".toList,
            ">".toList, "out.txt".toList])
        = .ok (new_argv, q)
      ∧ isRedirOp op = true
      ∧ ["sort".toList, "-r".toList, "<".toList, "in.txt".toList, "-u".toList, ">".toList,
          "out.txt".toList]
        = ["sort".toList, "-r".toList, "<".toList, "in.txt".toList, "-u".toList, ">".toList,
            "out.txt".toList].takeWhile (fun t => !isRedirOp t) ++ op :: back
      ∧ readVec new_argv
        = .ok (["sort".toList, "-r".toList, "<".toList, "in.txt".toList, "-u".toList,
            ">".toList, "out.txt".toList].takeWhile (fun t => !isRedirOp t))
      ∧ load new_argv (["sort".toList, "-r".toList, "<".toList, "in.txt".toList, "-u".toList,
            ">".toList, "out.txt".toList].takeWhile (fun t => !isRedirOp t)).length
        = .ok none
      ∧ ∀ t ∈ ["sort".toList, "-r".toList, "<".toList, "in.txt".toList, "-u".toList,
            ">".toList, "out.txt".toList].takeWhile (fun t => !isRedirOp t),
          isRedirOp t = false :=
  redirect_residual_is_leading_part okOs stdProc
    ["sort".toList, "-r".toList, "<".toList, "in.txt".toList, "-u".toList, ">".toList,
      "out.txt".toList] (by decide) (by decide)

end Mash
